import Mathlib

/-!
Verification development for the icon-sync pipeline of the repository
(scripts/sync_icons.py).  Strings are modelled as lists of characters,
Python dicts as insertion-ordered association lists, and the filesystem
as an association list from paths to file contents.  Object ids (the
keys of the external dataset mapping) are modelled as naturals, since
the script compares them with int(k).  The repository root REPO is
modelled as the empty path, so repository-relative paths such as
"assets/units/x.png" serve both as manifest src fields and as
filesystem keys, exactly as in the script.
-/

namespace SyncIcons

/-- Character class of the regex [a-z0-9] used by the normalizer. -/
def isLA (c : Char) : Bool :=
  (97 ≤ c.toNat && c.toNat ≤ 122) || (48 ≤ c.toNat && c.toNat ≤ 57)

/-- ASCII whitespace, the class matched by Python's str.strip and regex \s. -/
def isWS (c : Char) : Bool :=
  c.toNat == 32 || c.toNat == 9 || c.toNat == 10 || c.toNat == 13 || c.toNat == 11 || c.toNat == 12

/-- Python str.lstrip(): drop leading whitespace. -/
def stripLeft (l : List Char) : List Char := l.dropWhile isWS

/-- Python str.strip(): drop leading and trailing whitespace. -/
def strip (l : List Char) : List Char :=
  ((stripLeft l).reverse.dropWhile isWS).reverse

/-- Fuelled scanner for re.sub(r"\([^)]*\)", "", s): a match starts at a
left parenthesis and extends through the first following right
parenthesis; without a closing parenthesis there is no match and the
scan moves on.  Fuel bounds the recursion by the length of the list. -/
def dropParensF : Nat → List Char → List Char
  | 0, l => l
  | _ + 1, [] => []
  | fuel + 1, c :: rest =>
    if c == '(' && !((rest.dropWhile (fun d => !(d == ')'))).isEmpty) then
      dropParensF fuel ((rest.dropWhile (fun d => !(d == ')'))).tail)
    else c :: dropParensF fuel rest

/-- re.sub(r"\([^)]*\)", "", s): delete parenthesized groups. -/
def dropParens (l : List Char) : List Char := dropParensF l.length l

/-- Fuelled scanner for Python str.replace: replace non-overlapping
occurrences of pat by rep, scanning left to right. -/
def replAllF (pat rep : List Char) : Nat → List Char → List Char
  | 0, l => l
  | _ + 1, [] => []
  | fuel + 1, c :: rest =>
    if pat.isPrefixOf (c :: rest) then
      rep ++ replAllF pat rep fuel ((c :: rest).drop pat.length)
    else c :: replAllF pat rep fuel rest

/-- Python str.replace(pat, rep). -/
def replAll (pat rep l : List Char) : List Char := replAllF pat rep l.length l

/-- The apostrophe character. -/
def aposChar : Char := Char.ofNat 39

/-- The mojibake sequence replaced by an apostrophe in the normalizer. -/
def mojiApos : List Char := ['â', '€', '™']

/-- re.sub(r"[^a-z0-9]+"," ",s) as a one-pass scanner: the flag records
whether the scanner is inside a run of non-alphanumeric characters,
so each maximal run emits exactly one space. -/
def squashNA : Bool → List Char → List Char
  | _, [] => []
  | inRun, c :: rest =>
    if isLA c then c :: squashNA false rest
    else if inRun then squashNA true rest
    else ' ' :: squashNA true rest

/-- re.sub(r"\s+"," ",s) as a one-pass scanner. -/
def squashWS : Bool → List Char → List Char
  | _, [] => []
  | inRun, c :: rest =>
    if isWS c then (if inRun then squashWS true rest else ' ' :: squashWS true rest)
    else c :: squashWS false rest

/-- The slug normalizer norm(s) of scripts/sync_icons.py:
lowercase and strip, delete parenthesized groups, repair the mojibake
apostrophe, replace runs of non-alphanumerics by single spaces,
collapse whitespace and trim. -/
def norm (s : List Char) : List Char :=
  let s1 := strip (s.map Char.toLower)
  let s2 := dropParens s1
  let s3 := replAll mojiApos [aposChar] s2
  let s4 := squashNA false s3
  strip (squashWS false s4)

/-- Dictionary lookup on an insertion-ordered association list. -/
def lookup {β : Type} (m : List (List Char × β)) (k : List Char) : Option β :=
  (m.find? (fun p => p.1 == k)).map (·.2)

/-- Dictionary assignment d[k] = v: an existing key keeps its position
and gets the new value, a new key is appended at the end. -/
def assocSet {β : Type} (m : List (List Char × β)) (k : List Char) (v : β) : List (List Char × β) :=
  if (m.find? (fun p => p.1 == k)).isSome then
    m.map (fun p => if p.1 == k then (k, v) else p)
  else m ++ [(k, v)]

/-- An index from name keys to object ids. -/
abbrev Idx := List (List Char × Nat)

/-- One step of building name_to_objid: keep the entry with the
numerically smaller id when the (stripped, non-empty) name collides. -/
def n2oStep (acc : Idx) (kv : Nat × List Char) : Idx :=
  let name := strip kv.2
  if name.isEmpty then acc
  else
    match lookup acc name with
    | none => acc ++ [(name, kv.1)]
    | some old => if kv.1 < old then assocSet acc name kv.1 else acc

/-- The exact-name index name_to_objid built from the dataset objects
mapping (id, display name), in iteration order. -/
def name_to_objid (objects : List (Nat × List Char)) : Idx :=
  objects.foldl n2oStep []

/-- The normalized-name index norm_to_objid: iterate the exact index and
setdefault the normalized key, so the first entry seen wins. -/
def norm_to_objid (n2o : Idx) : Idx :=
  n2o.foldl
    (fun acc p => if (lookup acc (norm p.1)).isSome then acc else acc ++ [(norm p.1, p.2)]) []

/-- civ_name_to_iconid: plain dict assignment name -> id over the
dataset civilizations, so the last entry seen wins. -/
def civ_name_to_iconid (cobjs : List (List Char × Nat)) : Idx :=
  cobjs.foldl (fun acc p => assocSet acc p.1 p.2) []

/-- The one hardcoded alias rewrite applied to a normalized name. -/
def aliasRewrite (n : List Char) : List Char :=
  replAll ("man at arms".data) ("man-at-arms".data) n

/-- find_objid(unit_name): exact index, then normalized index, then the
alias rewrite against the normalized index; pairs the id with the
matched exact name (only on an exact hit). -/
def find_objid (n2o nrm2o : Idx) (unit_name : List Char) : Option Nat × Option (List Char) :=
  match lookup n2o unit_name with
  | some objid => (some objid, some unit_name)
  | none =>
    let n := norm unit_name
    match lookup nrm2o n with
    | some objid => (some objid, none)
    | none =>
      let n2 := aliasRewrite n
      match lookup nrm2o n2 with
      | some objid => (some objid, none)
      | none => (none, none)

/-- The filesystem: a map from paths to file contents. -/
abbrev Fs := List (List Char × List Char)

/-- The final path component (Python Path.name). -/
def lastName (p : List Char) : List Char :=
  (p.reverse.takeWhile (fun c => !(c == '/'))).reverse

/-- Python Path.suffix: the extension of the final component, empty when
the last dot is leading or trailing or absent. -/
def pathSuffix (p : List Char) : List Char :=
  let nm := lastName p
  let rtail := nm.reverse.takeWhile (fun c => !(c == '.'))
  if rtail.length == nm.length then []
  else if rtail.length == 0 then []
  else if rtail.length + 1 == nm.length then []
  else '.' :: rtail.reverse

/-- Python Path.with_suffix(ext): replace (or append) the extension. -/
def withSuffix (p ext : List Char) : List Char :=
  p.take (p.length - (pathSuffix p).length) ++ ext

/-- The extension preference order of copy_best. -/
def extOrder : List (List Char) := [".png".data, ".jpg".data, ".jpeg".data, ".webp".data]

/-- copy_best(src_base, dest): try each extension in order; on the first
candidate that exists, copy it to dest with that extension and return
the destination file name together with the updated filesystem. -/
def copy_best (fs : Fs) (src_base dest : List Char) : Option (List Char × Fs) :=
  match extOrder.find? (fun ext => (lookup fs (withSuffix src_base ext)).isSome) with
  | none => none
  | some ext =>
    match lookup fs (withSuffix src_base ext) with
    | none => none
    | some content =>
      some (lastName (withSuffix dest ext), assocSet fs (withSuffix dest ext) content)

/-- A matched manifest entry; absent JSON keys are none. -/
structure ManifestEntry where
  name : List Char
  objectId : Option Nat
  src : List Char
  matchedName : Option (List Char) := none
  fallbackFrom : Option (List Char) := none
  reason : Option (List Char) := none
deriving DecidableEq

/-- An unmatched-units record; absent JSON keys are none. -/
structure UnmatchedUnit where
  id : List Char
  name : List Char
  objectId : Option Nat := none
  reason : Option (List Char) := none
deriving DecidableEq

/-- A matched civilisations entry. -/
structure CivEntry where
  name : List Char
  iconId : Nat
  src : List Char
deriving DecidableEq

/-- An unmatched-civs record; these always carry a reason string. -/
structure UnmatchedCiv where
  id : List Char
  name : List Char
  iconId : Option Nat := none
  reason : List Char
deriving DecidableEq

/-- An input unit record; a missing id or name is modelled as []. -/
structure UnitRec where
  id : List Char
  name : List Char
deriving DecidableEq

/-- An input civilization record; a missing id or name is modelled as []. -/
structure CivRec where
  id : List Char
  name : List Char
deriving DecidableEq

/-- The mutable state of a run: the filesystem plus the four manifest
partitions being built. -/
structure SyncState where
  fs : Fs
  units : List (List Char × ManifestEntry)
  unmatched_units : List UnmatchedUnit
  civs : List (List Char × CivEntry)
  unmatched_civs : List UnmatchedCiv
deriving DecidableEq

/-- The units output directory (REPO-relative), which is also the
manifest src path. -/
def unitsOutDir : List Char := "assets/units/".data

/-- The civs output directory (REPO-relative). -/
def civsOutDir : List Char := "assets/civs/".data

/-- Decimal rendering of an object id, as str(id) does. -/
def natChars (n : Nat) : List Char := Nat.toDigits 10 n

/-- ICON_SRC / objects / objid. -/
def objSrcBase (objid : Nat) : List Char :=
  "/tmp/aoe2-icon-resources/objects/".data ++ natChars objid

/-- ICON_SRC / civilizations / iconid. -/
def civSrcBase (iconid : Nat) : List Char :=
  "/tmp/aoe2-icon-resources/civilizations/".data ++ natChars iconid

/-- The derived-entry id marker. -/
def elitePre : List Char := "elite_".data

/-- The reason string of a branch-one elite fallback entry. -/
def eliteReason : List Char := "elite fallback (no objectId match)".data

/-- The reason string of a no-icon-file unmatched record. -/
def noIconReason : List Char := "no icon file".data

/-- The reason string of an unmatched civilization with no dataset id. -/
def noCivIdReason : List Char := "no civ id in dataset".data

/-- Truthiness check on a unit record: both id and name non-empty. -/
def validU (u : UnitRec) : Bool := !u.id.isEmpty && !u.name.isEmpty

/-- Truthiness check on a civilization record. -/
def validC (c : CivRec) : Bool := !c.id.isEmpty && !c.name.isEmpty

/-- The outcome of resolving one unit record: either a manifest entry
together with the filesystem after the copy, or an unmatched record. -/
inductive UnitOutcome where
  | matched (e : ManifestEntry) (fs' : Fs)
  | unmatched (r : UnmatchedUnit)
deriving DecidableEq

/-- The body of the units loop for one (valid) record: direct resolution
via find_objid and copy_best, with the elite fallback tried both when no
object id was found and when the object id has no icon file, mirroring
lines 91-145 of scripts/sync_icons.py. -/
def unitOutcome (n2o nrm2o : Idx) (fs : Fs) (um : List (List Char × ManifestEntry))
    (u : UnitRec) : UnitOutcome :=
  match find_objid n2o nrm2o u.name with
  | (none, _) =>
    if elitePre.isPrefixOf u.id then
      match lookup um (u.id.drop elitePre.length) with
      | some base_entry =>
        match lookup fs base_entry.src with
        | some content =>
          UnitOutcome.matched
            { name := u.name, objectId := none,
              src := "assets/units/".data ++ lastName (unitsOutDir ++ u.id ++ pathSuffix base_entry.src),
              fallbackFrom := some (u.id.drop elitePre.length), reason := some eliteReason }
            (assocSet fs (unitsOutDir ++ u.id ++ pathSuffix base_entry.src) content)
        | none => UnitOutcome.unmatched { id := u.id, name := u.name }
      | none => UnitOutcome.unmatched { id := u.id, name := u.name }
    else UnitOutcome.unmatched { id := u.id, name := u.name }
  | (some objid, matched_name) =>
    match copy_best fs (objSrcBase objid) (unitsOutDir ++ u.id) with
    | some (fname, fs') =>
      UnitOutcome.matched
        { name := u.name, objectId := some objid, src := "assets/units/".data ++ fname,
          matchedName := matched_name } fs'
    | none =>
      if elitePre.isPrefixOf u.id then
        match lookup um (u.id.drop elitePre.length) with
        | some base_entry =>
          match lookup fs base_entry.src with
          | some content =>
            UnitOutcome.matched
              { name := u.name, objectId := some objid,
                src := "assets/units/".data ++ lastName (unitsOutDir ++ u.id ++ pathSuffix base_entry.src),
                matchedName := matched_name,
                fallbackFrom := some (u.id.drop elitePre.length) }
              (assocSet fs (unitsOutDir ++ u.id ++ pathSuffix base_entry.src) content)
          | none =>
            UnitOutcome.unmatched
              { id := u.id, name := u.name, objectId := some objid, reason := some noIconReason }
        | none =>
          UnitOutcome.unmatched
            { id := u.id, name := u.name, objectId := some objid, reason := some noIconReason }
      else
        UnitOutcome.unmatched
          { id := u.id, name := u.name, objectId := some objid, reason := some noIconReason }

/-- One iteration of the units loop: skip invalid records, otherwise
commit the outcome to the state. -/
def processUnit (n2o nrm2o : Idx) (st : SyncState) (u : UnitRec) : SyncState :=
  if validU u then
    match unitOutcome n2o nrm2o st.fs st.units u with
    | UnitOutcome.matched e fs' =>
      { st with fs := fs', units := assocSet st.units u.id e }
    | UnitOutcome.unmatched r =>
      { st with unmatched_units := st.unmatched_units ++ [r] }
  else st

/-- The outcome of resolving one civilization record. -/
inductive CivOutcome where
  | matched (e : CivEntry) (fs' : Fs)
  | unmatched (r : UnmatchedCiv)
deriving DecidableEq

/-- The body of the civs loop for one (valid) record, mirroring lines
153-167 of scripts/sync_icons.py. -/
def civOutcome (c2i : Idx) (fs : Fs) (c : CivRec) : CivOutcome :=
  match lookup c2i c.name with
  | none => CivOutcome.unmatched { id := c.id, name := c.name, reason := noCivIdReason }
  | some iconid =>
    match copy_best fs (civSrcBase iconid) (civsOutDir ++ c.id) with
    | none =>
      CivOutcome.unmatched
        { id := c.id, name := c.name, iconId := some iconid, reason := noIconReason }
    | some (fname, fs') =>
      CivOutcome.matched
        { name := c.name, iconId := iconid, src := "assets/civs/".data ++ fname } fs'

/-- One iteration of the civs loop. -/
def processCiv (c2i : Idx) (st : SyncState) (c : CivRec) : SyncState :=
  if validC c then
    match civOutcome c2i st.fs c with
    | CivOutcome.matched e fs' =>
      { st with fs := fs', civs := assocSet st.civs c.id e }
    | CivOutcome.unmatched r =>
      { st with unmatched_civs := st.unmatched_civs ++ [r] }
  else st

/-- The initial state: input filesystem, all manifest partitions empty. -/
def initState (fs0 : Fs) : SyncState :=
  { fs := fs0, units := [], unmatched_units := [], civs := [], unmatched_civs := [] }

/-- The units loop. -/
def runUnits (n2o nrm2o : Idx) (st : SyncState) (us : List UnitRec) : SyncState :=
  us.foldl (processUnit n2o nrm2o) st

/-- The civs loop. -/
def runCivs (c2i : Idx) (st : SyncState) (cs : List CivRec) : SyncState :=
  cs.foldl (processCiv c2i) st

/-- The whole pipeline: build the three indices, then run the units loop
followed by the civs loop from the initial state. -/
def runPipeline (objects : List (Nat × List Char)) (civObjs : List (List Char × Nat))
    (fs0 : Fs) (us : List UnitRec) (cs : List CivRec) : SyncState :=
  runCivs (civ_name_to_iconid civObjs)
    (runUnits (name_to_objid objects) (norm_to_objid (name_to_objid objects))
      (initState fs0) us) cs

/-- The keys of an association list, in insertion order. -/
def keysOf {β : Type} (m : List (List Char × β)) : List (List Char) := m.map (·.1)

/-- The ids of the unmatched-units partition. -/
def umIds (st : SyncState) : List (List Char) := st.unmatched_units.map (·.id)

/-- The ids of the unmatched-civs partition. -/
def ucIds (st : SyncState) : List (List Char) := st.unmatched_civs.map (·.id)

/-- Concrete fixture: a dataset with the single object Pikeman, id 5. -/
def pikeObjs : List (Nat × List Char) := [(5, ("Pikeman".data))]

/-- Exact index of the fixture. -/
def pikeN2O : Idx := name_to_objid pikeObjs

/-- Normalized index of the fixture. -/
def pikeNrm : Idx := norm_to_objid pikeN2O

/-- Input filesystem of the fixture: only the base unit has an icon. -/
def pikeFs : Fs := [(("/tmp/aoe2-icon-resources/objects/5.png".data), ("PNGBYTES".data))]

/-- The base unit record of the fixture. -/
def uBase : UnitRec := { id := "pikeman".data, name := "Pikeman".data }

/-- The derived unit record of the fixture. -/
def uElite : UnitRec := { id := "elite_pikeman".data, name := "Elite Pikeman".data }

/-- The fixture run with the base before the derived entry. -/
def goodOrderRun : SyncState :=
  runUnits pikeN2O pikeNrm (initState pikeFs) [uBase, uElite]

/-- The fixture run with the derived entry before its base. -/
def badOrderRun : SyncState :=
  runUnits pikeN2O pikeNrm (initState pikeFs) [uElite, uBase]

/-- The manifest entry produced for the base unit of the fixture. -/
def pikeBaseEntry : ManifestEntry :=
  { name := "Pikeman".data, objectId := some 5, src := "assets/units/pikeman.png".data,
    matchedName := some ("Pikeman".data) }

/-- The state of the fixture run after the base unit was processed. -/
def stAfterBase : SyncState :=
  { fs := pikeFs ++ [(("assets/units/pikeman.png".data), ("PNGBYTES".data))],
    units := [(("pikeman".data), pikeBaseEntry)],
    unmatched_units := [], civs := [], unmatched_civs := [] }

/-- Push one id into an optional running minimum. -/
def optMin1 : Option Nat → Nat → Option Nat
  | none, k => some k
  | some m, k => some (min m k)

/-- Left-biased choice on options (the semantics of a dict lookup that
falls through on a miss). -/
def optOr {α : Type} : Option α → Option α → Option α
  | some v, _ => some v
  | none, b => b

/-- Fold of min over the ids of the dataset entries whose stripped name
is nm, from a given accumulator (specification function for the
collision policy of name_to_objid). -/
def minOverFrom (a : Option Nat) (objects : List (Nat × List Char)) (nm : List Char) : Option Nat :=
  objects.foldl (fun acc kv => if strip kv.2 = nm then optMin1 acc kv.1 else acc) a

/-- The numerically smallest id among dataset entries whose stripped
name is nm. -/
def minOver (objects : List (Nat × List Char)) (nm : List Char) : Option Nat :=
  minOverFrom none objects nm

/-- Combine two optional minima. -/
def optMin2 : Option Nat → Option Nat → Option Nat
  | a, none => a
  | none, some k => some k
  | some m, some k => some (min m k)

/-- A character that can appear in a normalized name: lowercase ASCII
alphanumeric or the space. -/
def okChar (c : Char) : Prop := isLA c = true ∨ c = ' '

/-- No two adjacent spaces. -/
def spacedOK (l : List Char) : Prop := l.Chain' (fun a b => a ≠ ' ' ∨ b ≠ ' ')

/-- Code-point comparison of keys, the order json.dumps(sort_keys=True)
sorts object keys by. -/
def keyLE : List Char → List Char → Bool
  | [], _ => true
  | _ :: _, [] => false
  | a :: as, b :: bs =>
    if a.toNat < b.toNat then true
    else if b.toNat < a.toNat then false
    else keyLE as bs

/-- Key order on matched unit entries. -/
def relU (a b : List Char × ManifestEntry) : Prop := keyLE a.1 b.1 = true

/-- Key order on matched civilization entries. -/
def relC (a b : List Char × CivEntry) : Prop := keyLE a.1 b.1 = true

instance : DecidableRel relU :=
  fun a b => inferInstanceAs (Decidable (keyLE a.1 b.1 = true))

instance : DecidableRel relC :=
  fun a b => inferInstanceAs (Decidable (keyLE a.1 b.1 = true))

/-- keyLE is total (a def of a proposition so that the order instances
below can be declared with the other definitions). -/
def keyLE_totalPf : ∀ a b : List Char, keyLE a b = true ∨ keyLE b a = true := by
  intro a
  induction a with
  | nil => intro b; left; rfl
  | cons c cs ih =>
    intro b
    cases b with
    | nil => right; rfl
    | cons d ds =>
      by_cases h1 : c.toNat < d.toNat
      · left; simp [keyLE, h1]
      · by_cases h2 : d.toNat < c.toNat
        · right; simp [keyLE, h1, h2]
        · rcases ih ds with h | h
          · left; simp [keyLE, h1, h2, h]
          · right; simp [keyLE, h1, h2, h]

/-- keyLE is transitive. -/
def keyLE_transPf :
    ∀ a b c : List Char, keyLE a b = true → keyLE b c = true → keyLE a c = true := by
  intro a
  induction a with
  | nil => intro b c _ _; rfl
  | cons x xs ih =>
    intro b c hab hbc
    cases b with
    | nil => simp [keyLE] at hab
    | cons y ys =>
      cases c with
      | nil => simp [keyLE] at hbc
      | cons z zs =>
        simp only [keyLE] at hab hbc ⊢
        by_cases hxy : x.toNat < y.toNat
        · by_cases hyz : y.toNat < z.toNat
          · have : x.toNat < z.toNat := Nat.lt_trans hxy hyz
            simp [this]
          · by_cases hzy : z.toNat < y.toNat
            · simp [hyz, hzy] at hbc
            · have hyz' : y.toNat = z.toNat := Nat.le_antisymm (Nat.le_of_not_lt hzy) (Nat.le_of_not_lt hyz)
              have : x.toNat < z.toNat := hyz' ▸ hxy
              simp [this]
        · by_cases hyx : y.toNat < x.toNat
          · simp [hxy, hyx] at hab
          · have hxy' : x.toNat = y.toNat := Nat.le_antisymm (Nat.le_of_not_lt hyx) (Nat.le_of_not_lt hxy)
            by_cases hyz : y.toNat < z.toNat
            · have : x.toNat < z.toNat := hxy' ▸ hyz
              simp [this]
            · by_cases hzy : z.toNat < y.toNat
              · simp [hyz, hzy] at hbc
              · simp [hxy, hyx] at hab
                simp [hyz, hzy] at hbc
                have hxz : ¬ x.toNat < z.toNat := by
                  rw [hxy']; exact hyz
                have hzx : ¬ z.toNat < x.toNat := by
                  rw [hxy']; exact hzy
                simp [hxz, hzx]
                exact ih ys zs hab hbc

instance : IsTotal (List Char × ManifestEntry) relU :=
  ⟨fun a b => keyLE_totalPf a.1 b.1⟩

instance : IsTrans (List Char × ManifestEntry) relU :=
  ⟨fun a b c => keyLE_transPf a.1 b.1 c.1⟩

instance : IsTotal (List Char × CivEntry) relC :=
  ⟨fun a b => keyLE_totalPf a.1 b.1⟩

instance : IsTrans (List Char × CivEntry) relC :=
  ⟨fun a b c => keyLE_transPf a.1 b.1 c.1⟩

/-- The matched-units partition in serialization order (sorted keys). -/
def sortedUnits (st : SyncState) : List (List Char × ManifestEntry) :=
  List.insertionSort relU st.units

/-- The matched-civs partition in serialization order (sorted keys). -/
def sortedCivs (st : SyncState) : List (List Char × CivEntry) :=
  List.insertionSort relC st.civs

/-- The newline character. -/
def nlChar : Char := Char.ofNat 10

/-- Render one matched unit entry. -/
def renderUnitEntry (p : List Char × ManifestEntry) : List Char :=
  p.1 ++ (':' :: p.2.src) ++ [nlChar]

/-- Render one matched civilization entry. -/
def renderCivEntry (p : List Char × CivEntry) : List Char :=
  p.1 ++ (':' :: p.2.src) ++ [nlChar]

/-- Render one unmatched-units record. -/
def renderUnmatchedUnit (r : UnmatchedUnit) : List Char :=
  r.id ++ (':' :: r.name) ++ [nlChar]

/-- Render one unmatched-civs record. -/
def renderUnmatchedCiv (r : UnmatchedCiv) : List Char :=
  r.id ++ (':' :: r.name) ++ [nlChar]

/-- Deterministic serialization of the manifest, with the top-level
partitions in sorted key order and each matched partition's keys
sorted, as json.dumps(manifest, indent=2, sort_keys=True) orders them. -/
def serializeManifest (st : SyncState) : List Char :=
  "civilisations\n".data ++ ((sortedCivs st).map renderCivEntry).flatten
  ++ "units\n".data ++ ((sortedUnits st).map renderUnitEntry).flatten
  ++ "unmatched_civs\n".data ++ (st.unmatched_civs.map renderUnmatchedCiv).flatten
  ++ "unmatched_units\n".data ++ (st.unmatched_units.map renderUnmatchedUnit).flatten

/-! ### Association-list lemmas -/

theorem lookup_cons {β : Type} (a : List Char × β) (m : List (List Char × β)) (k : List Char) :
    lookup (a :: m) k = if a.1 = k then some a.2 else lookup m k := by
  by_cases h : a.1 = k
  · have hb : (a.1 == k) = true := by simp [h]
    simp [lookup, List.find?, hb, h]
  · have hb : (a.1 == k) = false := by simp [h]
    simp [lookup, List.find?, hb, h]

theorem lookup_append_none {β : Type} {m₁ : List (List Char × β)} {k : List Char}
    (m₂ : List (List Char × β)) (h : lookup m₁ k = none) :
    lookup (m₁ ++ m₂) k = lookup m₂ k := by
  induction m₁ with
  | nil => rfl
  | cons a m ih =>
    rw [lookup_cons] at h
    by_cases ha : a.1 = k
    · simp [ha] at h
    · rw [List.cons_append, lookup_cons, if_neg ha]
      exact ih (by simpa [ha] using h)

theorem lookup_append_some {β : Type} {m₁ : List (List Char × β)} {k : List Char} {v : β}
    (m₂ : List (List Char × β)) (h : lookup m₁ k = some v) :
    lookup (m₁ ++ m₂) k = some v := by
  induction m₁ with
  | nil => simp [lookup] at h
  | cons a m ih =>
    rw [lookup_cons] at h
    by_cases ha : a.1 = k
    · rw [List.cons_append, lookup_cons, if_pos ha]
      simpa [ha] using h
    · rw [List.cons_append, lookup_cons, if_neg ha]
      exact ih (by simpa [ha] using h)

theorem find?_isSome_of_lookup {β : Type} {m : List (List Char × β)} {k : List Char}
    (h : (lookup m k).isSome) : (m.find? (fun p => p.1 == k)).isSome := by
  unfold lookup at h
  cases hf : m.find? (fun p => p.1 == k) with
  | none => rw [hf] at h; simp at h
  | some p => rfl

theorem lookup_none_iff_find?_none {β : Type} {m : List (List Char × β)} {k : List Char} :
    lookup m k = none ↔ m.find? (fun p => p.1 == k) = none := by
  unfold lookup
  cases hf : m.find? (fun p => p.1 == k) with
  | none => simp
  | some p => simp

theorem lookup_mapSet {β : Type} (m : List (List Char × β)) (k : List Char) (v : β)
    (hs : ∃ p ∈ m, p.1 = k) :
    lookup (m.map (fun p => if p.1 == k then (k, v) else p)) k = some v := by
  induction m with
  | nil => rcases hs with ⟨p, hp, _⟩; cases hp
  | cons a m ih =>
    rw [List.map_cons]
    by_cases ha : a.1 = k
    · have h2 : (if a.1 == k then (k, v) else a) = (k, v) := by simp [ha]
      rw [h2, lookup_cons]
      simp
    · have h2 : (if a.1 == k then (k, v) else a) = a := by simp [ha]
      rw [h2, lookup_cons, if_neg ha]
      apply ih
      rcases hs with ⟨p, hp, hpk⟩
      rcases List.mem_cons.mp hp with rfl | hp'
      · exact absurd hpk ha
      · exact ⟨p, hp', hpk⟩

theorem lookup_mapSet_ne {β : Type} (m : List (List Char × β)) (k k' : List Char) (v : β)
    (h : k' ≠ k) :
    lookup (m.map (fun p => if p.1 == k then (k, v) else p)) k' = lookup m k' := by
  induction m with
  | nil => rfl
  | cons a m ih =>
    rw [List.map_cons]
    by_cases ha : a.1 = k
    · have h2 : (if a.1 == k then (k, v) else a) = (k, v) := by simp [ha]
      rw [h2, lookup_cons, lookup_cons, if_neg (Ne.symm h), if_neg (show ¬ a.1 = k' by rw [ha]; exact Ne.symm h)]
      exact ih
    · have h2 : (if a.1 == k then (k, v) else a) = a := by simp [ha]
      rw [h2, lookup_cons, lookup_cons]
      by_cases hk : a.1 = k'
      · rw [if_pos hk, if_pos hk]
      · rw [if_neg hk, if_neg hk]; exact ih

theorem lookup_assocSet_self {β : Type} (m : List (List Char × β)) (k : List Char) (v : β) :
    lookup (assocSet m k v) k = some v := by
  unfold assocSet
  by_cases hs : (m.find? (fun p => p.1 == k)).isSome
  · rw [if_pos hs]
    apply lookup_mapSet
    cases hf : m.find? (fun p => p.1 == k) with
    | none => rw [hf] at hs; simp at hs
    | some p => exact ⟨p, List.mem_of_find?_eq_some hf, by simpa using List.find?_some hf⟩
  · rw [if_neg hs]
    have hnone : lookup m k = none :=
      lookup_none_iff_find?_none.mpr (Option.not_isSome_iff_eq_none.mp hs)
    rw [lookup_append_none _ hnone, lookup_cons]
    simp

theorem lookup_assocSet_ne {β : Type} (m : List (List Char × β)) (k k' : List Char) (v : β)
    (h : k' ≠ k) : lookup (assocSet m k v) k' = lookup m k' := by
  unfold assocSet
  by_cases hs : (m.find? (fun p => p.1 == k)).isSome
  · rw [if_pos hs]
    exact lookup_mapSet_ne m k k' v h
  · rw [if_neg hs]
    cases hl : lookup m k' with
    | some v' => exact lookup_append_some _ hl
    | none =>
      rw [lookup_append_none _ hl, lookup_cons, if_neg (Ne.symm h)]
      rfl

theorem mem_keysOf_assocSet {β : Type} (m : List (List Char × β)) (k i : List Char) (v : β) :
    i ∈ keysOf (assocSet m k v) ↔ i = k ∨ i ∈ keysOf m := by
  unfold assocSet
  by_cases hs : (m.find? (fun p => p.1 == k)).isSome
  · rw [if_pos hs]
    have hmem : ∃ p ∈ m, p.1 = k := by
      cases hf : m.find? (fun p => p.1 == k) with
      | none => rw [hf] at hs; simp at hs
      | some p => exact ⟨p, List.mem_of_find?_eq_some hf, by simpa using List.find?_some hf⟩
    unfold keysOf
    constructor
    · intro hi
      rcases List.mem_map.mp hi with ⟨q, hq, hqi⟩
      rcases List.mem_map.mp hq with ⟨p, hp, hpq⟩
      by_cases hpk : p.1 = k
      · left
        have hq2 : q = (k, v) := by rw [← hpq]; simp [hpk]
        rw [← hqi, hq2]
      · right
        have hq2 : q = p := by rw [← hpq]; simp [hpk]
        exact List.mem_map.mpr ⟨p, hp, by rw [← hqi, hq2]⟩
    · intro hi
      rcases hi with rfl | hi
      · rcases hmem with ⟨p, hp, hpk⟩
        exact List.mem_map.mpr ⟨(i, v), List.mem_map.mpr ⟨p, hp, by simp [hpk]⟩, rfl⟩
      · rcases List.mem_map.mp hi with ⟨p, hp, hpi⟩
        by_cases hpk : p.1 = k
        · refine List.mem_map.mpr ⟨(k, v), List.mem_map.mpr ⟨p, hp, by simp [hpk]⟩, ?_⟩
          rw [← hpi, hpk]
        · exact List.mem_map.mpr ⟨p, List.mem_map.mpr ⟨p, hp, by simp [hpk]⟩, hpi⟩
  · rw [if_neg hs]
    unfold keysOf
    rw [List.map_append, List.map_cons, List.map_nil, List.mem_append, List.mem_singleton]
    exact or_comm

/-! ### Claim C1: tier order of find_objid -/

/-- C1: resolution tries the tiers in strict order, returning on the
first hit: exact index on the query name, then the normalized index on
the normalized query, then the normalized index on the alias rewrite of
the normalized query, and otherwise none; an exact hit wins regardless
of the content of the normalized index. -/
theorem c1_resolution_tier_order (n2o nrm2o : Idx) (q : List Char) :
    ((lookup n2o q).isSome → find_objid n2o nrm2o q = (lookup n2o q, some q)) ∧
    (lookup n2o q = none → (lookup nrm2o (norm q)).isSome →
      find_objid n2o nrm2o q = (lookup nrm2o (norm q), none)) ∧
    (lookup n2o q = none → lookup nrm2o (norm q) = none →
      (lookup nrm2o (aliasRewrite (norm q))).isSome →
      find_objid n2o nrm2o q = (lookup nrm2o (aliasRewrite (norm q)), none)) ∧
    (lookup n2o q = none → lookup nrm2o (norm q) = none →
      lookup nrm2o (aliasRewrite (norm q)) = none →
      find_objid n2o nrm2o q = (none, none)) := by
  refine ⟨?_, ?_, ?_, ?_⟩
  · intro h
    match hx : lookup n2o q with
    | some v => simp [find_objid, hx]
    | none => rw [hx] at h; simp at h
  · intro h1 h2
    match hx : lookup nrm2o (norm q) with
    | some v => simp [find_objid, h1, hx]
    | none => rw [hx] at h2; simp at h2
  · intro h1 h2 h3
    match hx : lookup nrm2o (aliasRewrite (norm q)) with
    | some v => simp [find_objid, h1, h2, hx]
    | none => rw [hx] at h3; simp at h3
  · intro h1 h2 h3
    simp [find_objid, h1, h2, h3]

/-- Witness for C1: an exact hit with id 1 wins although the normalized
index maps the normalized query to the different id 2. -/
theorem c1_witness :
    find_objid [(("A".data), 1)] [(("a".data), 2)] ("A".data) = (some 1, some ("A".data)) ∧
    lookup [(("a".data), 2)] (norm ("A".data)) = some 2 := by
  constructor
  · have h := (c1_resolution_tier_order [(("A".data), 1)] [(("a".data), 2)] ("A".data)).1
      (by decide)
    rw [h]
    decide
  · decide

/-! ### Claim C5: the concrete Man-At-Arms scenario -/

/-- C5 counterexample: with the resource index containing the name
Man-At-Arms mapped to id 23, the normalized form of the query
Man at Arms does NOT fail direct lookup in the normalized index (the
index key is itself normalized to man at arms), and the alias rewrite
man-at-arms is not a key of the normalized index at all, so the claimed
alias-tier match is impossible. -/
theorem c5_counterexample :
    lookup (norm_to_objid (name_to_objid [(23, ("Man-At-Arms".data))]))
      (norm ("Man at Arms".data)) = some 23 ∧
    lookup (norm_to_objid (name_to_objid [(23, ("Man-At-Arms".data))]))
      (aliasRewrite (norm ("Man at Arms".data))) = none := by
  constructor
  · decide
  · decide

/-- C5 amended: the query Man at Arms resolves to id 23, but via the
normalized tier (the exact lookup misses, the normalized lookup on
man at arms hits directly), not via the alias rewrite. -/
theorem c5_amended_normalized_tier :
    lookup (name_to_objid [(23, ("Man-At-Arms".data))]) ("Man at Arms".data) = none ∧
    norm ("Man at Arms".data) = ("man at arms".data) ∧
    lookup (norm_to_objid (name_to_objid [(23, ("Man-At-Arms".data))]))
      ("man at arms".data) = some 23 ∧
    find_objid (name_to_objid [(23, ("Man-At-Arms".data))])
      (norm_to_objid (name_to_objid [(23, ("Man-At-Arms".data))]))
      ("Man at Arms".data) = (some 23, none) := by
  refine ⟨by decide, by decide, by decide, by decide⟩

/-! ### Character-class and normal-form lemmas for the normalizer -/

theorem toNat_range_of_isLA {c : Char} (h : isLA c = true) :
    (97 ≤ c.toNat ∧ c.toNat ≤ 122) ∨ (48 ≤ c.toNat ∧ c.toNat ≤ 57) := by
  unfold isLA at h
  simp only [Bool.or_eq_true, Bool.and_eq_true, decide_eq_true_eq] at h
  exact h

theorem isWS_false_of_isLA {c : Char} (h : isLA c = true) : isWS c = false := by
  have hr := toNat_range_of_isLA h
  unfold isWS
  simp only [Bool.or_eq_false_iff, beq_eq_false_iff_ne, ne_eq]
  rcases hr with ⟨h1, h2⟩ | ⟨h1, h2⟩ <;> omega

theorem isWS_false_of_ok {c : Char} (h : okChar c) (hs : c ≠ ' ') : isWS c = false := by
  rcases h with h | rfl
  · exact isWS_false_of_isLA h
  · exact absurd rfl hs

theorem ne_space_of_isLA {c : Char} (h : isLA c = true) : c ≠ ' ' := by
  intro hc
  rw [hc] at h
  exact absurd h (by decide)

theorem toLower_eq_self_of_ok {c : Char} (h : okChar c) : c.toLower = c := by
  have hn : ¬ (c.toNat ≥ 65 ∧ c.toNat ≤ 90) := by
    rcases h with h | rfl
    · rcases toNat_range_of_isLA h with ⟨h1, h2⟩ | ⟨h1, h2⟩ <;> omega
    · decide
  show (if c.toNat ≥ 65 ∧ c.toNat ≤ 90 then Char.ofNat (c.toNat + 32) else c) = c
  rw [if_neg hn]

theorem map_toLower_of_ok {l : List Char} (h : ∀ c ∈ l, okChar c) :
    l.map Char.toLower = l := by
  induction l with
  | nil => rfl
  | cons a l ih =>
    rw [List.map_cons, toLower_eq_self_of_ok (h a (List.mem_cons_self a l)),
      ih (fun c hc => h c (List.mem_cons_of_mem a hc))]

theorem dropWhile_eq_self_of_head {p : Char → Bool} {l : List Char}
    (h : ∀ c, l.head? = some c → p c = false) : l.dropWhile p = l := by
  cases l with
  | nil => rfl
  | cons a l =>
    rw [List.dropWhile_cons, if_neg]
    rw [h a rfl]
    simp

theorem head?_dropWhile_false (p : Char → Bool) (l : List Char) :
    ∀ c, (l.dropWhile p).head? = some c → p c = false := by
  induction l with
  | nil => intro c h; simp at h
  | cons a l ih =>
    intro c h
    rw [List.dropWhile_cons] at h
    by_cases hp : p a
    · rw [if_pos hp] at h
      exact ih c h
    · rw [if_neg hp] at h
      simp only [List.head?_cons, Option.some.injEq] at h
      rw [← h]
      simpa using hp

theorem mem_strip {l : List Char} {c : Char} (h : c ∈ strip l) : c ∈ l := by
  unfold strip stripLeft at h
  rw [List.mem_reverse] at h
  have h2 : c ∈ (l.dropWhile isWS).reverse :=
    (List.dropWhile_suffix isWS).sublist.mem h
  rw [List.mem_reverse] at h2
  exact (List.dropWhile_suffix isWS).sublist.mem h2

theorem head?_strip_not_ws (l : List Char) :
    ∀ c, (strip l).head? = some c → isWS c = false := by
  intro c h
  unfold strip stripLeft at h
  rw [List.head?_reverse] at h
  have hsfx : (l.dropWhile isWS).reverse.dropWhile isWS <:+ (l.dropWhile isWS).reverse :=
    List.dropWhile_suffix isWS
  rcases hsfx with ⟨t, ht⟩
  have hne : (l.dropWhile isWS).reverse.dropWhile isWS ≠ [] := by
    intro hnil
    rw [hnil, List.getLast?_nil] at h
    cases h
  have hgl := List.getLast?_append_of_ne_nil t hne
  rw [ht] at hgl
  rw [← hgl, List.getLast?_reverse] at h
  exact head?_dropWhile_false isWS _ c h

theorem getLast?_strip_not_ws (l : List Char) :
    ∀ c, (strip l).getLast? = some c → isWS c = false := by
  intro c h
  unfold strip stripLeft at h
  rw [List.getLast?_reverse] at h
  exact head?_dropWhile_false isWS _ c h

theorem strip_eq_self {l : List Char}
    (hh : ∀ c, l.head? = some c → isWS c = false)
    (hl : ∀ c, l.getLast? = some c → isWS c = false) : strip l = l := by
  unfold strip stripLeft
  rw [dropWhile_eq_self_of_head hh]
  rw [dropWhile_eq_self_of_head (by intro c hc; rw [List.head?_reverse] at hc; exact hl c hc)]
  exact List.reverse_reverse l

theorem spacedOK_reverse {l : List Char} (h : spacedOK l) : spacedOK l.reverse := by
  unfold spacedOK at h ⊢
  rw [List.chain'_reverse]
  exact h.imp (fun a b hab => Or.symm hab)

theorem spacedOK_dropWhile {l : List Char} (p : Char → Bool) (h : spacedOK l) :
    spacedOK (l.dropWhile p) :=
  h.suffix (List.dropWhile_suffix p)

theorem spacedOK_strip {l : List Char} (h : spacedOK l) : spacedOK (strip l) := by
  unfold strip stripLeft
  exact spacedOK_reverse (spacedOK_dropWhile isWS (spacedOK_reverse (spacedOK_dropWhile isWS h)))

theorem squashNA_ok : ∀ (b : Bool) (l : List Char), ∀ c ∈ squashNA b l, okChar c := by
  intro b l
  induction l generalizing b with
  | nil => intro c hc; cases hc
  | cons a l ih =>
    intro c hc
    unfold squashNA at hc
    by_cases ha : isLA a
    · rw [if_pos ha] at hc
      rcases List.mem_cons.mp hc with rfl | hc'
      · exact Or.inl ha
      · exact ih false c hc'
    · rw [if_neg ha] at hc
      by_cases hb : b = true
      · rw [if_pos hb] at hc
        exact ih true c hc
      · rw [if_neg hb] at hc
        rcases List.mem_cons.mp hc with rfl | hc'
        · exact Or.inr rfl
        · exact ih true c hc'

theorem head?_squashNA_true (l : List Char) :
    ∀ c, (squashNA true l).head? = some c → isLA c = true := by
  induction l with
  | nil => intro c h; cases h
  | cons a l ih =>
    intro c h
    unfold squashNA at h
    by_cases ha : isLA a
    · rw [if_pos ha] at h
      simp only [List.head?_cons, Option.some.injEq] at h
      rw [← h]; exact ha
    · rw [if_neg ha, if_pos rfl] at h
      exact ih c h

theorem spacedOK_squashNA : ∀ (b : Bool) (l : List Char), spacedOK (squashNA b l) := by
  intro b l
  induction l generalizing b with
  | nil => exact List.chain'_nil
  | cons a l ih =>
    unfold squashNA
    by_cases ha : isLA a
    · rw [if_pos ha]
      refine List.chain'_cons'.mpr ⟨?_, ih false⟩
      intro y _
      exact Or.inl (ne_space_of_isLA ha)
    · rw [if_neg ha]
      by_cases hb : b = true
      · rw [if_pos hb]; exact ih true
      · rw [if_neg hb]
        refine List.chain'_cons'.mpr ⟨?_, ih true⟩
        intro y hy
        exact Or.inr (ne_space_of_isLA (head?_squashNA_true l y hy))

theorem squashNA_eq_self : ∀ (l : List Char) (b : Bool),
    (∀ c ∈ l, okChar c) → spacedOK l →
    (b = true → ∀ c, l.head? = some c → c ≠ ' ') → squashNA b l = l := by
  intro l
  induction l with
  | nil => intro b _ _ _; rfl
  | cons a l ih =>
    intro b hok hsp hflag
    unfold squashNA
    rcases hok a (List.mem_cons_self a l) with ha | ha
    · rw [if_pos ha]
      congr 1
      refine ih false (fun c hc => hok c (List.mem_cons_of_mem a hc))
        ((List.chain'_cons'.mp hsp).2) (by intro h; cases h)
    · subst ha
      have hla : isLA ' ' = false := by decide
      rw [if_neg (by rw [hla]; exact Bool.false_ne_true)]
      by_cases hb : b = true
      · exact absurd rfl (hflag hb ' ' rfl)
      · rw [if_neg hb]
        congr 1
        refine ih true (fun c hc => hok c (List.mem_cons_of_mem _ hc))
          ((List.chain'_cons'.mp hsp).2) ?_
        intro _ c hc
        have := (List.chain'_cons'.mp hsp).1 c hc
        rcases this with h | h
        · exact absurd rfl h
        · exact h

theorem squashWS_eq_self : ∀ (l : List Char) (b : Bool),
    (∀ c ∈ l, okChar c) → spacedOK l →
    (b = true → ∀ c, l.head? = some c → c ≠ ' ') → squashWS b l = l := by
  intro l
  induction l with
  | nil => intro b _ _ _; rfl
  | cons a l ih =>
    intro b hok hsp hflag
    unfold squashWS
    rcases hok a (List.mem_cons_self a l) with ha | ha
    · rw [if_neg (by rw [isWS_false_of_isLA ha]; exact Bool.false_ne_true)]
      congr 1
      exact ih false (fun c hc => hok c (List.mem_cons_of_mem a hc))
        ((List.chain'_cons'.mp hsp).2) (by intro h; cases h)
    · subst ha
      rw [if_pos (show isWS ' ' = true by decide)]
      by_cases hb : b = true
      · exact absurd rfl (hflag hb ' ' rfl)
      · rw [if_neg hb]
        congr 1
        refine ih true (fun c hc => hok c (List.mem_cons_of_mem _ hc))
          ((List.chain'_cons'.mp hsp).2) ?_
        intro _ c hc
        rcases (List.chain'_cons'.mp hsp).1 c hc with h | h
        · exact absurd rfl h
        · exact h

theorem dropParensF_eq_self : ∀ (fuel : Nat) (l : List Char), '(' ∉ l →
    dropParensF fuel l = l := by
  intro fuel
  induction fuel with
  | zero => intro l _; rfl
  | succ fuel ih =>
    intro l hl
    cases l with
    | nil => rfl
    | cons c rest =>
      have hc : ¬ c = '(' := fun h => hl (h ▸ List.mem_cons_self c rest)
      unfold dropParensF
      rw [if_neg]
      · rw [ih rest (fun h => hl (List.mem_cons_of_mem c h))]
      · simp [hc]

theorem replAllF_eq_self (pat rep : List Char) (c0 : Char) (pat' : List Char)
    (hp : pat = c0 :: pat') :
    ∀ (fuel : Nat) (l : List Char), c0 ∉ l → replAllF pat rep fuel l = l := by
  intro fuel
  induction fuel with
  | zero => intro l _; rfl
  | succ fuel ih =>
    intro l hl
    cases l with
    | nil => rfl
    | cons c rest =>
      have hc : ¬ c0 = c := fun h => hl (h ▸ List.mem_cons_self c rest)
      unfold replAllF
      rw [if_neg]
      · rw [ih rest (fun h => hl (List.mem_cons_of_mem c h))]
      · rw [hp]
        unfold List.isPrefixOf
        simp [hc]

theorem mem_squashWS : ∀ (b : Bool) (l : List Char) (c : Char),
    c ∈ squashWS b l → c = ' ' ∨ c ∈ l := by
  intro b l
  induction l generalizing b with
  | nil => intro c hc; cases hc
  | cons a l ih =>
    intro c hc
    unfold squashWS at hc
    by_cases ha : isWS a
    · rw [if_pos ha] at hc
      by_cases hb : b = true
      · rw [if_pos hb] at hc
        rcases ih true c hc with h | h
        · exact Or.inl h
        · exact Or.inr (List.mem_cons_of_mem a h)
      · rw [if_neg hb] at hc
        rcases List.mem_cons.mp hc with rfl | hc'
        · exact Or.inl rfl
        · rcases ih true c hc' with h | h
          · exact Or.inl h
          · exact Or.inr (List.mem_cons_of_mem a h)
    · rw [if_neg ha] at hc
      rcases List.mem_cons.mp hc with rfl | hc'
      · exact Or.inr (List.mem_cons_self c l)
      · rcases ih false c hc' with h | h
        · exact Or.inl h
        · exact Or.inr (List.mem_cons_of_mem a h)

theorem norm_eq_strip_squashNA (s : List Char) :
    norm s =
      strip (squashNA false (replAll mojiApos [aposChar] (dropParens (strip (s.map Char.toLower))))) := by
  show strip (squashWS false (squashNA false
      (replAll mojiApos [aposChar] (dropParens (strip (s.map Char.toLower)))))) = _
  rw [squashWS_eq_self _ false
    (squashNA_ok false _)
    (spacedOK_squashNA false _)
    (by intro h; cases h)]

theorem norm_mem_ok (s : List Char) : ∀ c ∈ norm s, okChar c := by
  rw [norm_eq_strip_squashNA]
  intro c hc
  exact squashNA_ok false _ c (mem_strip hc)

theorem norm_spacedOK (s : List Char) : spacedOK (norm s) := by
  rw [norm_eq_strip_squashNA]
  exact spacedOK_strip (spacedOK_squashNA false _)

theorem norm_head_not_ws (s : List Char) :
    ∀ c, (norm s).head? = some c → isWS c = false := by
  rw [norm_eq_strip_squashNA]
  exact head?_strip_not_ws _

theorem norm_getLast_not_ws (s : List Char) :
    ∀ c, (norm s).getLast? = some c → isWS c = false := by
  rw [norm_eq_strip_squashNA]
  exact getLast?_strip_not_ws _

theorem norm_eq_self_of_normal {l : List Char}
    (hok : ∀ c ∈ l, okChar c) (hsp : spacedOK l)
    (hh : ∀ c, l.head? = some c → isWS c = false)
    (hl : ∀ c, l.getLast? = some c → isWS c = false) : norm l = l := by
  have hnospace_head : ∀ c, l.head? = some c → c ≠ ' ' := by
    intro c hc heq
    subst heq
    exact absurd (hh _ hc) (by decide)
  have hparen : '(' ∉ l := by
    intro hmem
    rcases hok '(' hmem with h | h
    · exact absurd h (by decide)
    · exact absurd h (by decide)
  have hmoji : 'â' ∉ l := by
    intro hmem
    rcases hok 'â' hmem with h | h
    · exact absurd h (by decide)
    · exact absurd h (by decide)
  have e1 : l.map Char.toLower = l := map_toLower_of_ok hok
  have e2 : strip l = l := strip_eq_self hh hl
  have e3 : dropParens l = l := dropParensF_eq_self l.length l hparen
  have e4 : replAll mojiApos [aposChar] l = l :=
    replAllF_eq_self mojiApos [aposChar] 'â' ['€', '™'] rfl l.length l hmoji
  have e5 : squashNA false l = l := squashNA_eq_self l false hok hsp (by intro h; cases h)
  have e6 : squashWS false l = l := squashWS_eq_self l false hok hsp (by intro h; cases h)
  show strip (squashWS false (squashNA false
      (replAll mojiApos [aposChar] (dropParens (strip (l.map Char.toLower)))))) = l
  rw [e1, e2, e3, e4, e5, e6]
  exact e2

/-! ### Claim C6: the normalizer is idempotent and total -/

/-- C6: the slug normalizer is idempotent (normalizing twice equals
normalizing once, for every input string), and it is a total function
mapping the empty string to the empty string. -/
theorem c6_norm_idempotent_total :
    (∀ s : List Char, norm (norm s) = norm s) ∧ norm [] = [] := by
  constructor
  · intro s
    exact norm_eq_self_of_normal (norm_mem_ok s) (norm_spacedOK s)
      (norm_head_not_ws s) (norm_getLast_not_ws s)
  · rfl

/-! ### Claim C2: collision policy of the two indices -/

theorem optMin2_none_left (x : Option Nat) : optMin2 none x = x := by
  cases x <;> rfl

theorem optMin2_assoc1 (a : Option Nat) (k : Nat) (x : Option Nat) :
    optMin2 (optMin1 a k) x = optMin2 a (optMin2 (some k) x) := by
  cases a <;> cases x <;> simp [optMin1, optMin2, Nat.min_assoc]

theorem lookup_n2oStep (acc : Idx) (kv : Nat × List Char) (nm : List Char) (hnm : nm ≠ []) :
    lookup (n2oStep acc kv) nm =
      if strip kv.2 = nm then optMin1 (lookup acc nm) kv.1 else lookup acc nm := by
  unfold n2oStep
  by_cases he : (strip kv.2).isEmpty
  · have hne : ¬ strip kv.2 = nm := by
      intro h
      rw [h] at he
      exact hnm (List.isEmpty_iff.mp he)
    rw [if_pos he, if_neg hne]
  · rw [if_neg he]
    cases hl : lookup acc (strip kv.2) with
    | none =>
      by_cases hm : strip kv.2 = nm
      · subst hm
        rw [if_pos rfl, hl]
        rw [lookup_append_none _ hl, lookup_cons, if_pos rfl]
        rfl
      · rw [if_neg hm]
        cases hk : lookup acc nm with
        | some v => exact lookup_append_some _ hk
        | none =>
          rw [lookup_append_none _ hk, lookup_cons, if_neg hm]
          rfl
    | some old =>
      show lookup (if kv.1 < old then assocSet acc (strip kv.2) kv.1 else acc) nm = _
      by_cases hlt : kv.1 < old
      · rw [if_pos hlt]
        by_cases hm : strip kv.2 = nm
        · subst hm
          rw [if_pos rfl, hl, lookup_assocSet_self]
          show some kv.1 = some (min old kv.1)
          congr 1
          omega
        · rw [if_neg hm]
          exact lookup_assocSet_ne acc (strip kv.2) nm kv.1 (Ne.symm hm)
      · rw [if_neg hlt]
        by_cases hm : strip kv.2 = nm
        · subst hm
          rw [if_pos rfl, hl]
          show some old = some (min old kv.1)
          congr 1
          omega
        · rw [if_neg hm]

theorem minOverFrom_eq (objects : List (Nat × List Char)) (nm : List Char) :
    ∀ a, minOverFrom a objects nm = optMin2 a (minOver objects nm) := by
  induction objects with
  | nil => intro a; cases a <;> rfl
  | cons kv objs ih =>
    intro a
    show minOverFrom (if strip kv.2 = nm then optMin1 a kv.1 else a) objs nm = _
    rw [ih]
    show _ = optMin2 a (minOverFrom (if strip kv.2 = nm then optMin1 none kv.1 else none) objs nm)
    rw [ih]
    by_cases hm : strip kv.2 = nm
    · rw [if_pos hm, if_pos hm]
      exact optMin2_assoc1 a kv.1 _
    · rw [if_neg hm, if_neg hm, optMin2_none_left]

theorem lookup_name_to_objid_from (objects : List (Nat × List Char)) (nm : List Char)
    (hnm : nm ≠ []) :
    ∀ acc : Idx, lookup (objects.foldl n2oStep acc) nm = optMin2 (lookup acc nm) (minOver objects nm) := by
  induction objects with
  | nil =>
    intro acc
    rw [List.foldl_nil]
    cases hl : lookup acc nm <;> rfl
  | cons kv objs ih =>
    intro acc
    rw [List.foldl_cons, ih (n2oStep acc kv), lookup_n2oStep acc kv nm hnm]
    show _ = optMin2 (lookup acc nm) (minOverFrom (if strip kv.2 = nm then optMin1 none kv.1 else none) objs nm)
    rw [minOverFrom_eq]
    by_cases hm : strip kv.2 = nm
    · rw [if_pos hm, if_pos hm]
      exact optMin2_assoc1 _ kv.1 _
    · rw [if_neg hm, if_neg hm, optMin2_none_left]

theorem lookup_name_to_objid (objects : List (Nat × List Char)) (nm : List Char)
    (hnm : nm ≠ []) : lookup (name_to_objid objects) nm = minOver objects nm := by
  unfold name_to_objid
  rw [lookup_name_to_objid_from objects nm hnm []]
  exact optMin2_none_left _

theorem minOverFrom_mem : ∀ (objects : List (Nat × List Char)) (a : Option Nat)
    (nm : List Char) (k : Nat), minOverFrom a objects nm = some k →
    a = some k ∨ ∃ v, (k, v) ∈ objects ∧ strip v = nm := by
  intro objects
  induction objects with
  | nil => intro a nm k h; exact Or.inl h
  | cons kv objs ih =>
    intro a nm k h
    have h' : minOverFrom (if strip kv.2 = nm then optMin1 a kv.1 else a) objs nm = some k := h
    rcases ih _ nm k h' with ha | ⟨v, hv, hsv⟩
    · by_cases hm : strip kv.2 = nm
      · rw [if_pos hm] at ha
        cases a with
        | none =>
          right
          have hk : k = kv.1 := by
            unfold optMin1 at ha
            exact (Option.some_inj.mp ha).symm
          refine ⟨kv.2, ?_, hm⟩
          rw [hk, Prod.mk.eta]
          exact List.mem_cons_self kv objs
        | some m =>
          unfold optMin1 at ha
          have hk : min m kv.1 = k := by
            simpa using ha
          rcases Nat.le_total m kv.1 with hle | hle
          · left
            have hkm : k = m := by omega
            rw [hkm]
          · right
            have hkk : k = kv.1 := by omega
            refine ⟨kv.2, ?_, hm⟩
            rw [hkk, Prod.mk.eta]
            exact List.mem_cons_self kv objs
      · rw [if_neg hm] at ha
        exact Or.inl ha
    · exact Or.inr ⟨v, List.mem_cons_of_mem kv hv, hsv⟩

theorem minOverFrom_seed_le : ∀ (objects : List (Nat × List Char)) (x : Nat)
    (nm : List Char) (k : Nat), minOverFrom (some x) objects nm = some k → k ≤ x := by
  intro objects
  induction objects with
  | nil =>
    intro x nm k h
    have : x = k := by simpa [minOverFrom] using h
    omega
  | cons kv objs ih =>
    intro x nm k h
    have h' : minOverFrom (if strip kv.2 = nm then optMin1 (some x) kv.1 else some x) objs nm = some k := h
    by_cases hm : strip kv.2 = nm
    · rw [if_pos hm] at h'
      unfold optMin1 at h'
      have := ih (min x kv.1) nm k h'
      have hmin : min x kv.1 ≤ x := Nat.min_le_left x kv.1
      omega
    · rw [if_neg hm] at h'
      exact ih x nm k h'

theorem minOverFrom_le : ∀ (objects : List (Nat × List Char)) (a : Option Nat)
    (nm : List Char) (k : Nat), minOverFrom a objects nm = some k →
    ∀ j w, (j, w) ∈ objects → strip w = nm → k ≤ j := by
  intro objects
  induction objects with
  | nil => intro a nm k _ j w hjw _; cases hjw
  | cons kv objs ih =>
    intro a nm k h j w hjw hsw
    have h' : minOverFrom (if strip kv.2 = nm then optMin1 a kv.1 else a) objs nm = some k := h
    rcases List.mem_cons.mp hjw with heq | hmem
    · have hkv1 : kv.1 = j := by rw [← heq]
      have hkv2 : kv.2 = w := by rw [← heq]
      have hm : strip kv.2 = nm := by rw [hkv2]; exact hsw
      rw [if_pos hm] at h'
      cases a with
      | none =>
        have := minOverFrom_seed_le objs kv.1 nm k h'
        omega
      | some m =>
        have := minOverFrom_seed_le objs (min m kv.1) nm k h'
        have h2 : min m kv.1 ≤ kv.1 := Nat.min_le_right m kv.1
        omega
    · exact ih _ nm k h' j w hmem hsw

theorem minOverFrom_isSome : ∀ (objects : List (Nat × List Char)) (a : Option Nat)
    (nm : List Char), ((∃ j w, (j, w) ∈ objects ∧ strip w = nm) ∨ a.isSome) →
    (minOverFrom a objects nm).isSome := by
  intro objects
  induction objects with
  | nil =>
    intro a nm h
    rcases h with ⟨j, w, hjw, _⟩ | h
    · cases hjw
    · exact h
  | cons kv objs ih =>
    intro a nm h
    show (minOverFrom (if strip kv.2 = nm then optMin1 a kv.1 else a) objs nm).isSome
    rcases h with ⟨j, w, hjw, hsw⟩ | hsome
    · rcases List.mem_cons.mp hjw with heq | hmem
      · have hm : strip kv.2 = nm := by
          have : kv.2 = w := by rw [← heq]
          rw [this]; exact hsw
        rw [if_pos hm]
        apply ih
        right
        cases a <;> rfl
      · exact ih _ nm (Or.inl ⟨j, w, hmem, hsw⟩)
    · apply ih
      right
      by_cases hm : strip kv.2 = nm
      · rw [if_pos hm]; cases a <;> rfl
      · rw [if_neg hm]; exact hsome

theorem minOver_perm {objects objects' : List (Nat × List Char)}
    (h : objects.Perm objects') (nm : List Char) :
    minOver objects nm = minOver objects' nm := by
  cases h1 : minOver objects nm with
  | none =>
    cases h2 : minOver objects' nm with
    | none => rfl
    | some k =>
      exfalso
      rcases (minOverFrom_mem objects' none nm k h2).resolve_left (by intro hc; cases hc)
        with ⟨v, hv, hsv⟩
      have hs : (minOverFrom none objects nm).isSome :=
        minOverFrom_isSome objects none nm (Or.inl ⟨k, v, h.mem_iff.mpr hv, hsv⟩)
      rw [show minOverFrom none objects nm = minOver objects nm from rfl, h1] at hs
      cases hs
  | some k =>
    cases h2 : minOver objects' nm with
    | none =>
      exfalso
      rcases (minOverFrom_mem objects none nm k h1).resolve_left (by intro hc; cases hc)
        with ⟨v, hv, hsv⟩
      have hs : (minOverFrom none objects' nm).isSome :=
        minOverFrom_isSome objects' none nm (Or.inl ⟨k, v, h.mem_iff.mp hv, hsv⟩)
      rw [show minOverFrom none objects' nm = minOver objects' nm from rfl, h2] at hs
      cases hs
    | some k' =>
      rcases (minOverFrom_mem objects none nm k h1).resolve_left (by intro hc; cases hc)
        with ⟨v, hv, hsv⟩
      rcases (minOverFrom_mem objects' none nm k' h2).resolve_left (by intro hc; cases hc)
        with ⟨v', hv', hsv'⟩
      have hk : k ≤ k' := minOverFrom_le objects none nm k h1 k' v' (h.mem_iff.mpr hv') hsv'
      have hk' : k' ≤ k := minOverFrom_le objects' none nm k' h2 k v (h.mem_iff.mp hv) hsv
      rw [Nat.le_antisymm hk hk']

theorem lookup_setdefault_from (m : Idx) (key : List Char) :
    ∀ acc : Idx,
      lookup (m.foldl
        (fun acc p => if (lookup acc (norm p.1)).isSome then acc else acc ++ [(norm p.1, p.2)]) acc) key =
      optOr (lookup acc key) ((m.find? (fun p => norm p.1 == key)).map (·.2)) := by
  induction m with
  | nil =>
    intro acc
    rw [List.foldl_nil]
    cases h : lookup acc key <;> rfl
  | cons p m ih =>
    intro acc
    rw [List.foldl_cons, ih]
    by_cases hs : (lookup acc (norm p.1)).isSome
    · rw [if_pos hs]
      cases h : lookup acc key with
      | some v => rfl
      | none =>
        have hne : ¬ (norm p.1 = key) := by
          intro he
          rw [he, h] at hs
          cases hs
        have hfind : List.find? (fun q => norm q.1 == key) (p :: m) =
            List.find? (fun q => norm q.1 == key) m := by
          rw [List.find?_cons,
            show (norm p.1 == key) = false from beq_eq_false_iff_ne.mpr hne]
        rw [hfind]
    · rw [if_neg hs]
      cases h : lookup acc key with
      | some v =>
        rw [lookup_append_some _ h]
        simp [optOr]
      | none =>
        rw [lookup_append_none _ h, lookup_cons]
        by_cases he : norm p.1 = key
        · have hfind : List.find? (fun q => norm q.1 == key) (p :: m) = some p := by
            rw [List.find?_cons,
              show (norm p.1 == key) = true from beq_iff_eq.mpr he]
          rw [if_pos he, hfind]
          simp [optOr]
        · have hfind : List.find? (fun q => norm q.1 == key) (p :: m) =
              List.find? (fun q => norm q.1 == key) m := by
            rw [List.find?_cons,
              show (norm p.1 == key) = false from beq_eq_false_iff_ne.mpr he]
          rw [if_neg he, hfind]
          simp [optOr, lookup]

/-- C2 counterexample: the ids 1 and 2 both produce the normalized key
man at arms; with the iteration order that presents id 2 first, the
normalized index maps the key to 2, not to the numerically smaller id 1,
and the two iteration orders produce different indices. -/
theorem c2_counterexample :
    norm ("Man At Arms".data) = norm ("Man-At-Arms".data) ∧
    lookup (norm_to_objid (name_to_objid [(1, ("Man At Arms".data)), (2, ("Man-At-Arms".data))]))
      ("man at arms".data) = some 1 ∧
    lookup (norm_to_objid (name_to_objid [(2, ("Man-At-Arms".data)), (1, ("Man At Arms".data))]))
      ("man at arms".data) = some 2 := by
  refine ⟨by decide, by decide, by decide⟩

/-- C2 (amended): for the exact-name index, a key maps to the
numerically smallest id among the entries carrying that (stripped)
name — a membership and minimality characterization that holds for
every iteration order, so the exact index is insensitive to input
order.  The normalized index instead resolves collisions first-seen:
its lookup returns the id of the first entry of the exact index whose
normalized name equals the key, which does depend on iteration order. -/
theorem c2_amended_collision_policy :
    (∀ (objects : List (Nat × List Char)) (nm : List Char) (k : Nat), nm ≠ [] →
       lookup (name_to_objid objects) nm = some k →
       (∃ v, (k, v) ∈ objects ∧ strip v = nm) ∧
       (∀ j w, (j, w) ∈ objects → strip w = nm → k ≤ j)) ∧
    (∀ (objects : List (Nat × List Char)) (nm : List Char) (j : Nat) (w : List Char),
       nm ≠ [] → (j, w) ∈ objects → strip w = nm →
       (lookup (name_to_objid objects) nm).isSome) ∧
    (∀ (objects objects' : List (Nat × List Char)) (nm : List Char), nm ≠ [] →
       objects.Perm objects' →
       lookup (name_to_objid objects) nm = lookup (name_to_objid objects') nm) ∧
    (∀ (m : Idx) (key : List Char),
       lookup (norm_to_objid m) key = (m.find? (fun p => norm p.1 == key)).map (·.2)) := by
  refine ⟨?_, ?_, ?_, ?_⟩
  · intro objects nm k hnm h
    rw [lookup_name_to_objid objects nm hnm] at h
    constructor
    · exact (minOverFrom_mem objects none nm k h).resolve_left (by intro hc; cases hc)
    · exact minOverFrom_le objects none nm k h
  · intro objects nm j w hnm hjw hsw
    rw [lookup_name_to_objid objects nm hnm]
    exact minOverFrom_isSome objects none nm (Or.inl ⟨j, w, hjw, hsw⟩)
  · intro objects objects' nm hnm hperm
    rw [lookup_name_to_objid objects nm hnm, lookup_name_to_objid objects' nm hnm]
    exact minOver_perm hperm nm
  · intro m key
    unfold norm_to_objid
    rw [lookup_setdefault_from m key []]
    rfl

/-- Witness for C2 (amended): with two entries both named Archer and ids
9 and 3, either iteration order of the exact index yields the same
lookup result. -/
theorem c2_witness :
    lookup (name_to_objid [(9, ("Archer".data)), (3, ("Archer".data))]) ("Archer".data) =
    lookup (name_to_objid [(3, ("Archer".data)), (9, ("Archer".data))]) ("Archer".data) :=
  (c2_amended_collision_policy.2.2.1
    [(9, ("Archer".data)), (3, ("Archer".data))]
    [(3, ("Archer".data)), (9, ("Archer".data))]
    ("Archer".data) (by decide) (by decide))

/-! ### Step lemmas for the units and civs loops -/

theorem isPrefixOf_append_self (p t : List Char) : p.isPrefixOf (p ++ t) = true := by
  induction p with
  | nil => cases t <;> rfl
  | cons a p ih =>
    show (a == a && p.isPrefixOf (p ++ t)) = true
    simp [ih]

theorem processUnit_matched {n2o nrm2o : Idx} {st : SyncState} {u : UnitRec}
    {e : ManifestEntry} {fs' : Fs} (hv : validU u = true)
    (ho : unitOutcome n2o nrm2o st.fs st.units u = UnitOutcome.matched e fs') :
    processUnit n2o nrm2o st u = { st with fs := fs', units := assocSet st.units u.id e } := by
  unfold processUnit
  rw [if_pos hv, ho]

theorem processUnit_unmatched {n2o nrm2o : Idx} {st : SyncState} {u : UnitRec}
    {r : UnmatchedUnit} (hv : validU u = true)
    (ho : unitOutcome n2o nrm2o st.fs st.units u = UnitOutcome.unmatched r) :
    processUnit n2o nrm2o st u = { st with unmatched_units := st.unmatched_units ++ [r] } := by
  unfold processUnit
  rw [if_pos hv, ho]

theorem processUnit_skip {n2o nrm2o : Idx} {st : SyncState} {u : UnitRec}
    (hv : ¬ validU u = true) : processUnit n2o nrm2o st u = st := by
  unfold processUnit
  rw [if_neg hv]

theorem processCiv_matched {c2i : Idx} {st : SyncState} {c : CivRec}
    {e : CivEntry} {fs' : Fs} (hv : validC c = true)
    (ho : civOutcome c2i st.fs c = CivOutcome.matched e fs') :
    processCiv c2i st c = { st with fs := fs', civs := assocSet st.civs c.id e } := by
  unfold processCiv
  rw [if_pos hv, ho]

theorem processCiv_unmatched {c2i : Idx} {st : SyncState} {c : CivRec}
    {r : UnmatchedCiv} (hv : validC c = true)
    (ho : civOutcome c2i st.fs c = CivOutcome.unmatched r) :
    processCiv c2i st c = { st with unmatched_civs := st.unmatched_civs ++ [r] } := by
  unfold processCiv
  rw [if_pos hv, ho]

theorem processCiv_skip {c2i : Idx} {st : SyncState} {c : CivRec}
    (hv : ¬ validC c = true) : processCiv c2i st c = st := by
  unfold processCiv
  rw [if_neg hv]

theorem unitOutcome_fallback_noObj (n2o nrm2o : Idx) (fs : Fs)
    (um : List (List Char × ManifestEntry)) (u : UnitRec) (b : List Char)
    (be : ManifestEntry) (content : List Char)
    (hid : u.id = elitePre ++ b)
    (hfind : (find_objid n2o nrm2o u.name).1 = none)
    (hbase : lookup um b = some be)
    (hsrc : lookup fs be.src = some content) :
    unitOutcome n2o nrm2o fs um u =
      UnitOutcome.matched
        { name := u.name, objectId := none,
          src := "assets/units/".data ++ lastName (unitsOutDir ++ u.id ++ pathSuffix be.src),
          fallbackFrom := some b, reason := some eliteReason }
        (assocSet fs (unitsOutDir ++ u.id ++ pathSuffix be.src) content) := by
  unfold unitOutcome
  split
  next x heq =>
    rw [hid, isPrefixOf_append_self, if_pos rfl, List.drop_left]
    split
    next be' heq2 =>
      rw [hbase] at heq2
      injection heq2 with h2
      subst h2
      split
      next content' heq3 =>
        rw [hsrc] at heq3
        injection heq3 with h3
        subst h3
        rfl
      next heq3 =>
        rw [hsrc] at heq3
        cases heq3
    next heq2 =>
      rw [hbase] at heq2
      cases heq2
  next objid mn heq =>
    rw [heq] at hfind
    simp at hfind

theorem unitOutcome_fallback_noIcon (n2o nrm2o : Idx) (fs : Fs)
    (um : List (List Char × ManifestEntry)) (u : UnitRec) (b : List Char)
    (be : ManifestEntry) (content : List Char) (objid : Nat) (mn : Option (List Char))
    (hid : u.id = elitePre ++ b)
    (hfind : find_objid n2o nrm2o u.name = (some objid, mn))
    (hcb : copy_best fs (objSrcBase objid) (unitsOutDir ++ u.id) = none)
    (hbase : lookup um b = some be)
    (hsrc : lookup fs be.src = some content) :
    unitOutcome n2o nrm2o fs um u =
      UnitOutcome.matched
        { name := u.name, objectId := some objid,
          src := "assets/units/".data ++ lastName (unitsOutDir ++ u.id ++ pathSuffix be.src),
          matchedName := mn, fallbackFrom := some b }
        (assocSet fs (unitsOutDir ++ u.id ++ pathSuffix be.src) content) := by
  unfold unitOutcome
  split
  next x heq =>
    rw [heq] at hfind
    simp at hfind
  next objid' mn' heq =>
    rw [heq] at hfind
    rw [Prod.mk.injEq] at hfind
    rcases hfind with ⟨ho, hm⟩
    rcases Option.some_inj.mp ho with rfl
    rcases hm with rfl
    rw [hcb]
    show (if elitePre.isPrefixOf u.id = true then _ else _) = _
    rw [hid, isPrefixOf_append_self, if_pos rfl, List.drop_left]
    split
    next be' heq2 =>
      rw [hbase] at heq2
      injection heq2 with h2
      subst h2
      split
      next content' heq3 =>
        rw [hsrc] at heq3
        injection heq3 with h3
        subst h3
        rfl
      next heq3 =>
        rw [hsrc] at heq3
        cases heq3
    next heq2 =>
      rw [hbase] at heq2
      cases heq2

theorem unitOutcome_direct (n2o nrm2o : Idx) (fs : Fs)
    (um : List (List Char × ManifestEntry)) (u : UnitRec) (objid : Nat)
    (mn : Option (List Char)) (fname : List Char) (fs' : Fs)
    (hfind : find_objid n2o nrm2o u.name = (some objid, mn))
    (hcb : copy_best fs (objSrcBase objid) (unitsOutDir ++ u.id) = some (fname, fs')) :
    unitOutcome n2o nrm2o fs um u =
      UnitOutcome.matched
        { name := u.name, objectId := some objid,
          src := "assets/units/".data ++ fname, matchedName := mn } fs' := by
  unfold unitOutcome
  split
  next x heq =>
    rw [heq] at hfind
    simp at hfind
  next objid' mn' heq =>
    rw [heq] at hfind
    rw [Prod.mk.injEq] at hfind
    rcases hfind with ⟨ho, hm⟩
    rcases Option.some_inj.mp ho with rfl
    rcases hm with rfl
    rw [hcb]

theorem unitOutcome_noObj_notElite (n2o nrm2o : Idx) (fs : Fs)
    (um : List (List Char × ManifestEntry)) (u : UnitRec)
    (hfind : (find_objid n2o nrm2o u.name).1 = none)
    (hne : ¬ (elitePre.isPrefixOf u.id = true)) :
    unitOutcome n2o nrm2o fs um u = UnitOutcome.unmatched { id := u.id, name := u.name } := by
  unfold unitOutcome
  split
  next x heq => rw [if_neg hne]
  next objid mn heq =>
    rw [heq] at hfind
    simp at hfind

theorem unitOutcome_noObj_noBase (n2o nrm2o : Idx) (fs : Fs)
    (um : List (List Char × ManifestEntry)) (u : UnitRec)
    (hfind : (find_objid n2o nrm2o u.name).1 = none)
    (hbnone : lookup um (u.id.drop elitePre.length) = none) :
    unitOutcome n2o nrm2o fs um u = UnitOutcome.unmatched { id := u.id, name := u.name } := by
  unfold unitOutcome
  split
  next x heq =>
    by_cases he : elitePre.isPrefixOf u.id = true
    · rw [if_pos he, hbnone]
    · rw [if_neg he]
  next objid mn heq =>
    rw [heq] at hfind
    simp at hfind

theorem unitOutcome_noIcon_notElite (n2o nrm2o : Idx) (fs : Fs)
    (um : List (List Char × ManifestEntry)) (u : UnitRec) (objid : Nat)
    (mn : Option (List Char))
    (hfind : find_objid n2o nrm2o u.name = (some objid, mn))
    (hcb : copy_best fs (objSrcBase objid) (unitsOutDir ++ u.id) = none)
    (hne : ¬ (elitePre.isPrefixOf u.id = true)) :
    unitOutcome n2o nrm2o fs um u =
      UnitOutcome.unmatched
        { id := u.id, name := u.name, objectId := some objid, reason := some noIconReason } := by
  unfold unitOutcome
  split
  next x heq =>
    rw [heq] at hfind
    simp at hfind
  next objid' mn' heq =>
    rw [heq] at hfind
    rw [Prod.mk.injEq] at hfind
    rcases hfind with ⟨ho, hm⟩
    rcases Option.some_inj.mp ho with rfl
    rcases hm with rfl
    rw [hcb]
    show (if elitePre.isPrefixOf u.id = true then _ else _) = _
    rw [if_neg hne]

theorem civOutcome_noId (c2i : Idx) (fs : Fs) (c : CivRec)
    (hl : lookup c2i c.name = none) :
    civOutcome c2i fs c =
      CivOutcome.unmatched { id := c.id, name := c.name, reason := noCivIdReason } := by
  unfold civOutcome
  rw [hl]

/-! ### Claim C3: elite fallback resolution -/

/-- C3: a derived entry whose id is elite_ followed by the base id, with
the base already present in the matched partition and its asset file
present, is resolved via fallback both when its own name yields no
object id and when it yields an object id with no icon file: the entry
is stored under its own id with fallbackFrom equal to the base id, the
asset path reuses the derived id with the base asset's extension, and
the copied file has the base asset's content. -/
theorem c3_elite_fallback (n2o nrm2o : Idx) (st : SyncState) (u : UnitRec) (b : List Char)
    (be : ManifestEntry) (content : List Char)
    (hv : validU u = true)
    (hid : u.id = elitePre ++ b)
    (hbase : lookup st.units b = some be)
    (hsrc : lookup st.fs be.src = some content) :
    ((find_objid n2o nrm2o u.name).1 = none →
      ∃ e, lookup (processUnit n2o nrm2o st u).units u.id = some e ∧
        e.fallbackFrom = some b ∧ e.objectId = none ∧
        e.src = "assets/units/".data ++ lastName (unitsOutDir ++ u.id ++ pathSuffix be.src) ∧
        lookup (processUnit n2o nrm2o st u).fs
          (unitsOutDir ++ u.id ++ pathSuffix be.src) = some content) ∧
    (∀ objid mn, find_objid n2o nrm2o u.name = (some objid, mn) →
      copy_best st.fs (objSrcBase objid) (unitsOutDir ++ u.id) = none →
      ∃ e, lookup (processUnit n2o nrm2o st u).units u.id = some e ∧
        e.fallbackFrom = some b ∧ e.objectId = some objid ∧
        e.src = "assets/units/".data ++ lastName (unitsOutDir ++ u.id ++ pathSuffix be.src) ∧
        lookup (processUnit n2o nrm2o st u).fs
          (unitsOutDir ++ u.id ++ pathSuffix be.src) = some content) := by
  constructor
  · intro hfind
    rw [processUnit_matched hv
      (unitOutcome_fallback_noObj n2o nrm2o st.fs st.units u b be content hid hfind hbase hsrc)]
    exact ⟨_, lookup_assocSet_self st.units u.id _, rfl, rfl, rfl,
      lookup_assocSet_self st.fs _ content⟩
  · intro objid mn hfind hcb
    rw [processUnit_matched hv
      (unitOutcome_fallback_noIcon n2o nrm2o st.fs st.units u b be content objid mn
        hid hfind hcb hbase hsrc)]
    exact ⟨_, lookup_assocSet_self st.units u.id _, rfl, rfl, rfl,
      lookup_assocSet_self st.fs _ content⟩

/-- Witness for C3: the derived fixture record elite_pikeman, processed
against the state in which its base pikeman is already matched, resolves
via fallback with fallbackFrom pikeman and the png extension preserved. -/
theorem c3_witness :
    ∃ e, lookup (processUnit pikeN2O pikeNrm stAfterBase uElite).units uElite.id = some e ∧
      e.fallbackFrom = some ("pikeman".data) ∧ e.objectId = none ∧
      e.src = "assets/units/".data ++
        lastName (unitsOutDir ++ uElite.id ++ pathSuffix pikeBaseEntry.src) ∧
      lookup (processUnit pikeN2O pikeNrm stAfterBase uElite).fs
        (unitsOutDir ++ uElite.id ++ pathSuffix pikeBaseEntry.src) = some ("PNGBYTES".data) :=
  (c3_elite_fallback pikeN2O pikeNrm stAfterBase uElite ("pikeman".data) pikeBaseEntry
    ("PNGBYTES".data) (by decide) (by decide) (by decide) (by decide)).1 (by decide)

/-! ### Claim C4: the ordering of base and derived entries matters -/

/-- C4 counterexample: the units loop is a single pass in input-list
order.  With the derived entry before its base, elite_pikeman ends up
unmatched although pikeman resolves successfully in the same run; with
the base first, elite_pikeman is resolved via fallback.  So the
base-before-derived requirement is NOT guaranteed for every input list:
it depends on the relative positions in the list. -/
theorem c4_counterexample :
    lookup badOrderRun.units ("elite_pikeman".data) = none ∧
    ("elite_pikeman".data) ∈ umIds badOrderRun ∧
    (lookup badOrderRun.units ("pikeman".data)).isSome = true ∧
    (lookup goodOrderRun.units ("elite_pikeman".data)).map (fun e => e.fallbackFrom) =
      some (some ("pikeman".data)) := by
  refine ⟨by decide, by decide, by decide, by decide⟩

/-- C4 (amended): the implementation is a single pass over the input
list, so fallback for a derived entry succeeds exactly when the base is
already in the matched partition when the derived entry is processed:
with the base present (and its asset on disk) the derived entry is
matched, and with the base absent at that moment the derived entry is
recorded unmatched — whence the base must precede the derived entry in
the input list, rather than being guaranteed by an explicit two-pass
design. -/
theorem c4_amended_single_pass_order (n2o nrm2o : Idx) (st : SyncState) (u : UnitRec)
    (b : List Char) :
    (validU u = true → u.id = elitePre ++ b →
      (find_objid n2o nrm2o u.name).1 = none →
      ∀ be content, lookup st.units b = some be → lookup st.fs be.src = some content →
        (lookup (processUnit n2o nrm2o st u).units u.id).isSome = true) ∧
    (validU u = true → u.id = elitePre ++ b →
      (find_objid n2o nrm2o u.name).1 = none →
      lookup st.units b = none →
      (processUnit n2o nrm2o st u).unmatched_units =
        st.unmatched_units ++ [{ id := u.id, name := u.name }] ∧
      (processUnit n2o nrm2o st u).units = st.units) := by
  constructor
  · intro hv hid hfind be content hbase hsrc
    rw [processUnit_matched hv
      (unitOutcome_fallback_noObj n2o nrm2o st.fs st.units u b be content hid hfind hbase hsrc)]
    rw [show ({ st with
        fs := assocSet st.fs (unitsOutDir ++ u.id ++ pathSuffix be.src) content,
        units := assocSet st.units u.id
          { name := u.name, objectId := none,
            src := "assets/units/".data ++ lastName (unitsOutDir ++ u.id ++ pathSuffix be.src),
            fallbackFrom := some b, reason := some eliteReason } } : SyncState).units =
      assocSet st.units u.id
        { name := u.name, objectId := none,
          src := "assets/units/".data ++ lastName (unitsOutDir ++ u.id ++ pathSuffix be.src),
          fallbackFrom := some b, reason := some eliteReason } from rfl]
    rw [lookup_assocSet_self]
    rfl
  · intro hv hid hfind hbnone
    have hb2 : lookup st.units (u.id.drop elitePre.length) = none := by
      rw [hid, List.drop_left]
      exact hbnone
    rw [processUnit_unmatched hv
      (unitOutcome_noObj_noBase n2o nrm2o st.fs st.units u hfind hb2)]
    exact ⟨rfl, rfl⟩

/-- Witness for C4 (amended): processing the derived fixture entry from
the initial state (base not yet processed) records it unmatched. -/
theorem c4_witness :
    (processUnit pikeN2O pikeNrm (initState pikeFs) uElite).unmatched_units =
      (initState pikeFs).unmatched_units ++ [{ id := uElite.id, name := uElite.name }] ∧
    (processUnit pikeN2O pikeNrm (initState pikeFs) uElite).units = (initState pikeFs).units :=
  (c4_amended_single_pass_order pikeN2O pikeNrm (initState pikeFs) uElite ("pikeman".data)).2
    (by decide) (by decide) (by decide) (by decide)

/-! ### Claim C7: failures recorded as data -/

/-- C7 counterexample: in the fixture run with the derived entry first,
the resolution failure for elite_pikeman is recorded in the unmatched
partition as a record with NO reason code at all (the no-name-match
branch appends only id and name), contradicting the claim that every
unresolved record carries a reason code. -/
theorem c7_counterexample :
    badOrderRun.unmatched_units.map (fun r => (r.id, r.reason)) =
      [(("elite_pikeman".data), (none : Option (List Char)))] := by
  decide

/-- C7 (amended): every resolution failure is recorded as data in the
unmatched partition and is never raised as an error — the processing
functions are total and each failing record simply appends one unmatched
record, including a derived elite_ entry whose base also failed to
resolve; however, the no-name-match unmatched-unit record carries no
reason code (only id and name), while the no-icon-file and
civilization-side failures do carry reason strings. -/
theorem c7_amended_failures_recorded (n2o nrm2o c2i : Idx) (st : SyncState) (u : UnitRec)
    (c : CivRec) :
    (validU u = true → (find_objid n2o nrm2o u.name).1 = none →
      ¬ (elitePre.isPrefixOf u.id = true) →
      processUnit n2o nrm2o st u =
        { st with unmatched_units := st.unmatched_units ++ [{ id := u.id, name := u.name }] }) ∧
    (validU u = true → (find_objid n2o nrm2o u.name).1 = none →
      lookup st.units (u.id.drop elitePre.length) = none →
      processUnit n2o nrm2o st u =
        { st with unmatched_units := st.unmatched_units ++ [{ id := u.id, name := u.name }] }) ∧
    (validU u = true → ∀ objid mn, find_objid n2o nrm2o u.name = (some objid, mn) →
      copy_best st.fs (objSrcBase objid) (unitsOutDir ++ u.id) = none →
      ¬ (elitePre.isPrefixOf u.id = true) →
      processUnit n2o nrm2o st u =
        { st with unmatched_units := st.unmatched_units ++
            [{ id := u.id, name := u.name, objectId := some objid, reason := some noIconReason }] }) ∧
    (validC c = true → lookup c2i c.name = none →
      processCiv c2i st c =
        { st with unmatched_civs := st.unmatched_civs ++
            [{ id := c.id, name := c.name, reason := noCivIdReason }] }) := by
  refine ⟨?_, ?_, ?_, ?_⟩
  · intro hv hfind hne
    exact processUnit_unmatched hv
      (unitOutcome_noObj_notElite n2o nrm2o st.fs st.units u hfind hne)
  · intro hv hfind hb
    exact processUnit_unmatched hv
      (unitOutcome_noObj_noBase n2o nrm2o st.fs st.units u hfind hb)
  · intro hv objid mn hfind hcb hne
    exact processUnit_unmatched hv
      (unitOutcome_noIcon_notElite n2o nrm2o st.fs st.units u objid mn hfind hcb hne)
  · intro hv hl
    exact processCiv_unmatched hv (civOutcome_noId c2i st.fs c hl)

/-- Witness for C7 (amended): the derived fixture entry with its base
missing is recorded unmatched as data (with no reason code), and the
run state is otherwise untouched. -/
theorem c7_witness :
    processUnit pikeN2O pikeNrm (initState pikeFs) uElite =
      { initState pikeFs with
        unmatched_units := (initState pikeFs).unmatched_units ++
          [{ id := uElite.id, name := uElite.name }] } :=
  (c7_amended_failures_recorded pikeN2O pikeNrm [] (initState pikeFs) uElite
    { id := "x".data, name := "X".data }).2.1 (by decide) (by decide) (by decide)

/-! ### Claim C8: the matchedName field -/

/-- C8 counterexample: the base fixture unit Pikeman matches the exact
index via its own name, and its manifest entry nevertheless carries
matchedName (equal to that own name) — the opposite of the claim that
matchedName is present only when the match was not via the entry's own
name. -/
theorem c8_counterexample :
    lookup pikeN2O ("Pikeman".data) = some 5 ∧
    (lookup goodOrderRun.units ("pikeman".data)).map (fun e => e.matchedName) =
      some (some ("Pikeman".data)) := by
  refine ⟨by decide, by decide⟩

/-- C8 (amended): find_objid returns a matched name exactly when the
query hits the exact index — i.e. when the match IS via the entry's own
name — and that matched name is the query itself; a directly matched
manifest entry stores this value in matchedName, so matchedName is
present precisely on exact own-name matches (and absent on normalized
and alias matches). -/
theorem c8_amended_matchedName (n2o nrm2o : Idx) (q : List Char) (st : SyncState)
    (u : UnitRec) :
    ((find_objid n2o nrm2o q).2 = if (lookup n2o q).isSome then some q else none) ∧
    (validU u = true → ∀ objid mn fname fs',
      find_objid n2o nrm2o u.name = (some objid, mn) →
      copy_best st.fs (objSrcBase objid) (unitsOutDir ++ u.id) = some (fname, fs') →
      lookup (processUnit n2o nrm2o st u).units u.id =
        some ({ name := u.name, objectId := some objid,
                src := "assets/units/".data ++ fname, matchedName := mn } : ManifestEntry)) := by
  constructor
  · cases hx : lookup n2o q with
    | some v => simp [find_objid, hx]
    | none =>
      simp only [find_objid, hx, Option.isSome_none, Bool.false_eq_true, if_false]
      cases lookup nrm2o (norm q) with
      | some v => rfl
      | none =>
        cases lookup nrm2o (aliasRewrite (norm q)) with
        | some v => rfl
        | none => rfl
  · intro hv objid mn fname fs' hfind hcb
    rw [processUnit_matched hv
      (unitOutcome_direct n2o nrm2o st.fs st.units u objid mn fname fs' hfind hcb)]
    exact lookup_assocSet_self st.units u.id _

/-- Witness for C8 (amended): the base fixture unit, matched exactly via
its own name Pikeman, is stored with matchedName equal to that name. -/
theorem c8_witness :
    lookup (processUnit pikeN2O pikeNrm (initState pikeFs) uBase).units uBase.id =
      some ({ name := uBase.name, objectId := some 5,
              src := "assets/units/".data ++ ("pikeman.png".data),
              matchedName := some ("Pikeman".data) } : ManifestEntry) :=
  (c8_amended_matchedName pikeN2O pikeNrm ("Pikeman".data) (initState pikeFs) uBase).2
    (by decide) 5 (some ("Pikeman".data)) ("pikeman.png".data)
    (pikeFs ++ [(("assets/units/pikeman.png".data), ("PNGBYTES".data))])
    (by decide) (by decide)

/-! ### Shape and preservation lemmas for the whole run -/

theorem unitOutcome_unmatched_id (n2o nrm2o : Idx) (fs : Fs)
    (um : List (List Char × ManifestEntry)) (u : UnitRec) (r : UnmatchedUnit)
    (ho : unitOutcome n2o nrm2o fs um u = UnitOutcome.unmatched r) : r.id = u.id := by
  unfold unitOutcome at ho
  split at ho
  next x heq =>
    split at ho
    · split at ho
      next be heq2 =>
        split at ho
        next c heq3 => cases ho
        next heq3 =>
          injection ho with h
          rw [← h]
      next heq2 =>
        injection ho with h
        rw [← h]
    · injection ho with h
      rw [← h]
  next objid mn heq =>
    split at ho
    next fname fs' heq2 => cases ho
    next heq2 =>
      split at ho
      · split at ho
        next be heq3 =>
          split at ho
          next c heq4 => cases ho
          next heq4 =>
            injection ho with h
            rw [← h]
        next heq3 =>
          injection ho with h
          rw [← h]
      · injection ho with h
        rw [← h]

theorem civOutcome_unmatched_id (c2i : Idx) (fs : Fs) (c : CivRec) (r : UnmatchedCiv)
    (ho : civOutcome c2i fs c = CivOutcome.unmatched r) : r.id = c.id := by
  unfold civOutcome at ho
  split at ho
  next heq =>
    injection ho with h
    rw [← h]
  next iconid heq =>
    split at ho
    next heq2 =>
      injection ho with h
      rw [← h]
    next fname fs' heq2 => cases ho

theorem processUnit_shape (n2o nrm2o : Idx) (st : SyncState) (u : UnitRec)
    (hv : validU u = true) :
    (∃ e fs', processUnit n2o nrm2o st u =
        { st with fs := fs', units := assocSet st.units u.id e }) ∨
    (∃ r : UnmatchedUnit, r.id = u.id ∧ processUnit n2o nrm2o st u =
        { st with unmatched_units := st.unmatched_units ++ [r] }) := by
  cases ho : unitOutcome n2o nrm2o st.fs st.units u with
  | matched e fs' => exact Or.inl ⟨e, fs', processUnit_matched hv ho⟩
  | unmatched r =>
    exact Or.inr ⟨r, unitOutcome_unmatched_id n2o nrm2o st.fs st.units u r ho,
      processUnit_unmatched hv ho⟩

theorem processCiv_shape (c2i : Idx) (st : SyncState) (c : CivRec)
    (hv : validC c = true) :
    (∃ e fs', processCiv c2i st c =
        { st with fs := fs', civs := assocSet st.civs c.id e }) ∨
    (∃ r : UnmatchedCiv, r.id = c.id ∧ processCiv c2i st c =
        { st with unmatched_civs := st.unmatched_civs ++ [r] }) := by
  cases ho : civOutcome c2i st.fs c with
  | matched e fs' => exact Or.inl ⟨e, fs', processCiv_matched hv ho⟩
  | unmatched r =>
    exact Or.inr ⟨r, civOutcome_unmatched_id c2i st.fs c r ho, processCiv_unmatched hv ho⟩

theorem runUnits_cons (n2o nrm2o : Idx) (st : SyncState) (u : UnitRec) (us : List UnitRec) :
    runUnits n2o nrm2o st (u :: us) = runUnits n2o nrm2o (processUnit n2o nrm2o st u) us := rfl

theorem runCivs_cons (c2i : Idx) (st : SyncState) (c : CivRec) (cs : List CivRec) :
    runCivs c2i st (c :: cs) = runCivs c2i (processCiv c2i st c) cs := rfl

theorem runUnits_civs_const (n2o nrm2o : Idx) :
    ∀ (us : List UnitRec) (st : SyncState),
      (runUnits n2o nrm2o st us).civs = st.civs ∧
      (runUnits n2o nrm2o st us).unmatched_civs = st.unmatched_civs := by
  intro us
  induction us with
  | nil => intro st; exact ⟨rfl, rfl⟩
  | cons u us ih =>
    intro st
    rw [runUnits_cons]
    by_cases hv : validU u = true
    · rcases processUnit_shape n2o nrm2o st u hv with ⟨e, fs', hp⟩ | ⟨r, _, hp⟩ <;>
        rw [hp] <;> exact ih _
    · rw [processUnit_skip hv]
      exact ih st

theorem runCivs_units_const (c2i : Idx) :
    ∀ (cs : List CivRec) (st : SyncState),
      (runCivs c2i st cs).units = st.units ∧
      (runCivs c2i st cs).unmatched_units = st.unmatched_units := by
  intro cs
  induction cs with
  | nil => intro st; exact ⟨rfl, rfl⟩
  | cons c cs ih =>
    intro st
    rw [runCivs_cons]
    by_cases hv : validC c = true
    · rcases processCiv_shape c2i st c hv with ⟨e, fs', hp⟩ | ⟨r, _, hp⟩ <;>
        rw [hp] <;> exact ih _
    · rw [processCiv_skip hv]
      exact ih st

theorem foldl_filter_skip {α σ : Type} (f : σ → α → σ) (p : α → Bool)
    (hskip : ∀ s a, ¬ p a = true → f s a = s) :
    ∀ (l : List α) (s : σ), l.foldl f s = (l.filter p).foldl f s := by
  intro l
  induction l with
  | nil => intro s; rfl
  | cons a l ih =>
    intro s
    by_cases hp : p a = true
    · rw [List.foldl_cons, List.filter_cons_of_pos hp, List.foldl_cons, ih]
    · rw [List.foldl_cons, hskip s a hp, List.filter_cons_of_neg hp, ih]

theorem umIds_append (st : SyncState) (r : UnmatchedUnit) :
    umIds { st with unmatched_units := st.unmatched_units ++ [r] } = umIds st ++ [r.id] := by
  show (st.unmatched_units ++ [r]).map (fun q => q.id) = _
  rw [List.map_append]
  rfl

theorem ucIds_append (st : SyncState) (r : UnmatchedCiv) :
    ucIds { st with unmatched_civs := st.unmatched_civs ++ [r] } = ucIds st ++ [r.id] := by
  show (st.unmatched_civs ++ [r]).map (fun q => q.id) = _
  rw [List.map_append]
  rfl

theorem runUnits_bound (n2o nrm2o : Idx) :
    ∀ (us : List UnitRec) (st : SyncState) (i : List Char),
      (i ∈ keysOf (runUnits n2o nrm2o st us).units →
        i ∈ keysOf st.units ∨ ∃ u ∈ us, validU u = true ∧ u.id = i) ∧
      (i ∈ umIds (runUnits n2o nrm2o st us) →
        i ∈ umIds st ∨ ∃ u ∈ us, validU u = true ∧ u.id = i) ∧
      (i ∈ keysOf st.units → i ∈ keysOf (runUnits n2o nrm2o st us).units) ∧
      (i ∈ umIds st → i ∈ umIds (runUnits n2o nrm2o st us)) := by
  intro us
  induction us with
  | nil =>
    intro st i
    exact ⟨fun h => Or.inl h, fun h => Or.inl h, id, id⟩
  | cons w us ih =>
    intro st i
    rw [runUnits_cons]
    by_cases hvw : validU w = true
    · rcases processUnit_shape n2o nrm2o st w hvw with ⟨e, fs', hp⟩ | ⟨r, hrid, hp⟩
      · rw [hp]
        refine ⟨?_, ?_, ?_, ?_⟩
        · intro h
          rcases (ih _ i).1 h with h1 | ⟨v, hv2, hvv, hvi⟩
          · rcases (mem_keysOf_assocSet st.units w.id i e).mp h1 with heq | h2
            · exact Or.inr ⟨w, List.mem_cons_self w us, hvw, heq.symm⟩
            · exact Or.inl h2
          · exact Or.inr ⟨v, List.mem_cons_of_mem w hv2, hvv, hvi⟩
        · intro h
          rcases (ih _ i).2.1 h with h1 | ⟨v, hv2, hvv, hvi⟩
          · exact Or.inl h1
          · exact Or.inr ⟨v, List.mem_cons_of_mem w hv2, hvv, hvi⟩
        · intro h
          exact (ih _ i).2.2.1 ((mem_keysOf_assocSet st.units w.id i e).mpr (Or.inr h))
        · intro h
          exact (ih _ i).2.2.2 h
      · rw [hp]
        refine ⟨?_, ?_, ?_, ?_⟩
        · intro h
          rcases (ih _ i).1 h with h1 | ⟨v, hv2, hvv, hvi⟩
          · exact Or.inl h1
          · exact Or.inr ⟨v, List.mem_cons_of_mem w hv2, hvv, hvi⟩
        · intro h
          rcases (ih _ i).2.1 h with h1 | ⟨v, hv2, hvv, hvi⟩
          · rw [umIds_append] at h1
            rcases List.mem_append.mp h1 with h2 | h2
            · exact Or.inl h2
            · rw [List.mem_singleton] at h2
              exact Or.inr ⟨w, List.mem_cons_self w us, hvw, by rw [← hrid, h2]⟩
          · exact Or.inr ⟨v, List.mem_cons_of_mem w hv2, hvv, hvi⟩
        · intro h
          exact (ih _ i).2.2.1 h
        · intro h
          apply (ih _ i).2.2.2
          rw [umIds_append]
          exact List.mem_append_left _ h
    · rw [processUnit_skip hvw]
      refine ⟨?_, ?_, ?_, ?_⟩
      · intro h
        rcases (ih st i).1 h with h1 | ⟨v, hv2, hvv, hvi⟩
        · exact Or.inl h1
        · exact Or.inr ⟨v, List.mem_cons_of_mem w hv2, hvv, hvi⟩
      · intro h
        rcases (ih st i).2.1 h with h1 | ⟨v, hv2, hvv, hvi⟩
        · exact Or.inl h1
        · exact Or.inr ⟨v, List.mem_cons_of_mem w hv2, hvv, hvi⟩
      · exact (ih st i).2.2.1
      · exact (ih st i).2.2.2

theorem runUnits_partition (n2o nrm2o : Idx) :
    ∀ (us : List UnitRec) (st : SyncState),
      ((us.filter validU).map (fun u => u.id)).Nodup →
      (∀ v ∈ us, validU v = true → ¬ v.id ∈ keysOf st.units ∧ ¬ v.id ∈ umIds st) →
      ∀ u ∈ us, validU u = true →
        (u.id ∈ keysOf (runUnits n2o nrm2o st us).units ∧
          ¬ u.id ∈ umIds (runUnits n2o nrm2o st us)) ∨
        (¬ u.id ∈ keysOf (runUnits n2o nrm2o st us).units ∧
          u.id ∈ umIds (runUnits n2o nrm2o st us)) := by
  intro us
  induction us with
  | nil => intro st _ _ u hu; cases hu
  | cons w us ih =>
    intro st hnd hpre u hu hvu
    rw [runUnits_cons]
    by_cases hvw : validU w = true
    · rw [List.filter_cons_of_pos hvw, List.map_cons, List.nodup_cons] at hnd
      have hndh := hnd.1
      have hndt := hnd.2
      rcases processUnit_shape n2o nrm2o st w hvw with ⟨e, fs', hp⟩ | ⟨r, hrid, hp⟩
      · rw [hp]
        have hpre' : ∀ v ∈ us, validU v = true →
            ¬ v.id ∈ keysOf (assocSet st.units w.id e) ∧ ¬ v.id ∈ umIds st := by
          intro v hv hvv
          constructor
          · intro hmem
            rcases (mem_keysOf_assocSet st.units w.id v.id e).mp hmem with heq | hmem2
            · apply hndh
              rw [← heq]
              exact List.mem_map.mpr ⟨v, List.mem_filter.mpr ⟨hv, hvv⟩, rfl⟩
            · exact (hpre v (List.mem_cons_of_mem w hv) hvv).1 hmem2
          · exact (hpre v (List.mem_cons_of_mem w hv) hvv).2
        rcases List.mem_cons.mp hu with rfl | huu
        · left
          constructor
          · apply (runUnits_bound n2o nrm2o us _ u.id).2.2.1
            exact (mem_keysOf_assocSet st.units u.id u.id e).mpr (Or.inl rfl)
          · intro hmem
            rcases (runUnits_bound n2o nrm2o us _ u.id).2.1 hmem with h1 | ⟨v, hv, hvv, hvi⟩
            · exact (hpre u (List.mem_cons_self u us) hvu).2 h1
            · apply hndh
              rw [← hvi]
              exact List.mem_map.mpr ⟨v, List.mem_filter.mpr ⟨hv, hvv⟩, rfl⟩
        · exact ih _ hndt hpre' u huu hvu
      · rw [hp]
        have hpre' : ∀ v ∈ us, validU v = true →
            ¬ v.id ∈ keysOf st.units ∧
            ¬ v.id ∈ umIds { st with unmatched_units := st.unmatched_units ++ [r] } := by
          intro v hv hvv
          refine ⟨(hpre v (List.mem_cons_of_mem w hv) hvv).1, ?_⟩
          intro hmem
          rw [umIds_append] at hmem
          rcases List.mem_append.mp hmem with h1 | h2
          · exact (hpre v (List.mem_cons_of_mem w hv) hvv).2 h1
          · rw [List.mem_singleton] at h2
            apply hndh
            rw [← hrid, ← h2]
            exact List.mem_map.mpr ⟨v, List.mem_filter.mpr ⟨hv, hvv⟩, rfl⟩
        rcases List.mem_cons.mp hu with rfl | huu
        · right
          constructor
          · intro hmem
            rcases (runUnits_bound n2o nrm2o us _ u.id).1 hmem with h1 | ⟨v, hv, hvv, hvi⟩
            · exact (hpre u (List.mem_cons_self u us) hvu).1 h1
            · apply hndh
              rw [← hvi]
              exact List.mem_map.mpr ⟨v, List.mem_filter.mpr ⟨hv, hvv⟩, rfl⟩
          · apply (runUnits_bound n2o nrm2o us _ u.id).2.2.2
            rw [umIds_append]
            apply List.mem_append_right
            rw [List.mem_singleton, hrid]
        · exact ih _ hndt hpre' u huu hvu
    · rw [processUnit_skip hvw]
      rw [List.filter_cons_of_neg hvw] at hnd
      rcases List.mem_cons.mp hu with rfl | huu
      · exact absurd hvu hvw
      · exact ih st hnd (fun v hv hvv => hpre v (List.mem_cons_of_mem w hv) hvv) u huu hvu

theorem runCivs_bound (c2i : Idx) :
    ∀ (cs : List CivRec) (st : SyncState) (i : List Char),
      (i ∈ keysOf (runCivs c2i st cs).civs →
        i ∈ keysOf st.civs ∨ ∃ c ∈ cs, validC c = true ∧ c.id = i) ∧
      (i ∈ ucIds (runCivs c2i st cs) →
        i ∈ ucIds st ∨ ∃ c ∈ cs, validC c = true ∧ c.id = i) ∧
      (i ∈ keysOf st.civs → i ∈ keysOf (runCivs c2i st cs).civs) ∧
      (i ∈ ucIds st → i ∈ ucIds (runCivs c2i st cs)) := by
  intro cs
  induction cs with
  | nil =>
    intro st i
    exact ⟨fun h => Or.inl h, fun h => Or.inl h, id, id⟩
  | cons w cs ih =>
    intro st i
    rw [runCivs_cons]
    by_cases hvw : validC w = true
    · rcases processCiv_shape c2i st w hvw with ⟨e, fs', hp⟩ | ⟨r, hrid, hp⟩
      · rw [hp]
        refine ⟨?_, ?_, ?_, ?_⟩
        · intro h
          rcases (ih _ i).1 h with h1 | ⟨v, hv2, hvv, hvi⟩
          · rcases (mem_keysOf_assocSet st.civs w.id i e).mp h1 with heq | h2
            · exact Or.inr ⟨w, List.mem_cons_self w cs, hvw, heq.symm⟩
            · exact Or.inl h2
          · exact Or.inr ⟨v, List.mem_cons_of_mem w hv2, hvv, hvi⟩
        · intro h
          rcases (ih _ i).2.1 h with h1 | ⟨v, hv2, hvv, hvi⟩
          · exact Or.inl h1
          · exact Or.inr ⟨v, List.mem_cons_of_mem w hv2, hvv, hvi⟩
        · intro h
          exact (ih _ i).2.2.1 ((mem_keysOf_assocSet st.civs w.id i e).mpr (Or.inr h))
        · intro h
          exact (ih _ i).2.2.2 h
      · rw [hp]
        refine ⟨?_, ?_, ?_, ?_⟩
        · intro h
          rcases (ih _ i).1 h with h1 | ⟨v, hv2, hvv, hvi⟩
          · exact Or.inl h1
          · exact Or.inr ⟨v, List.mem_cons_of_mem w hv2, hvv, hvi⟩
        · intro h
          rcases (ih _ i).2.1 h with h1 | ⟨v, hv2, hvv, hvi⟩
          · rw [ucIds_append] at h1
            rcases List.mem_append.mp h1 with h2 | h2
            · exact Or.inl h2
            · rw [List.mem_singleton] at h2
              exact Or.inr ⟨w, List.mem_cons_self w cs, hvw, by rw [← hrid, h2]⟩
          · exact Or.inr ⟨v, List.mem_cons_of_mem w hv2, hvv, hvi⟩
        · intro h
          exact (ih _ i).2.2.1 h
        · intro h
          apply (ih _ i).2.2.2
          rw [ucIds_append]
          exact List.mem_append_left _ h
    · rw [processCiv_skip hvw]
      refine ⟨?_, ?_, ?_, ?_⟩
      · intro h
        rcases (ih st i).1 h with h1 | ⟨v, hv2, hvv, hvi⟩
        · exact Or.inl h1
        · exact Or.inr ⟨v, List.mem_cons_of_mem w hv2, hvv, hvi⟩
      · intro h
        rcases (ih st i).2.1 h with h1 | ⟨v, hv2, hvv, hvi⟩
        · exact Or.inl h1
        · exact Or.inr ⟨v, List.mem_cons_of_mem w hv2, hvv, hvi⟩
      · exact (ih st i).2.2.1
      · exact (ih st i).2.2.2

theorem runCivs_partition (c2i : Idx) :
    ∀ (cs : List CivRec) (st : SyncState),
      ((cs.filter validC).map (fun c => c.id)).Nodup →
      (∀ v ∈ cs, validC v = true → ¬ v.id ∈ keysOf st.civs ∧ ¬ v.id ∈ ucIds st) →
      ∀ c ∈ cs, validC c = true →
        (c.id ∈ keysOf (runCivs c2i st cs).civs ∧
          ¬ c.id ∈ ucIds (runCivs c2i st cs)) ∨
        (¬ c.id ∈ keysOf (runCivs c2i st cs).civs ∧
          c.id ∈ ucIds (runCivs c2i st cs)) := by
  intro cs
  induction cs with
  | nil => intro st _ _ c hc; cases hc
  | cons w cs ih =>
    intro st hnd hpre c hc hvc
    rw [runCivs_cons]
    by_cases hvw : validC w = true
    · rw [List.filter_cons_of_pos hvw, List.map_cons, List.nodup_cons] at hnd
      have hndh := hnd.1
      have hndt := hnd.2
      rcases processCiv_shape c2i st w hvw with ⟨e, fs', hp⟩ | ⟨r, hrid, hp⟩
      · rw [hp]
        have hpre' : ∀ v ∈ cs, validC v = true →
            ¬ v.id ∈ keysOf (assocSet st.civs w.id e) ∧ ¬ v.id ∈ ucIds st := by
          intro v hv hvv
          constructor
          · intro hmem
            rcases (mem_keysOf_assocSet st.civs w.id v.id e).mp hmem with heq | hmem2
            · apply hndh
              rw [← heq]
              exact List.mem_map.mpr ⟨v, List.mem_filter.mpr ⟨hv, hvv⟩, rfl⟩
            · exact (hpre v (List.mem_cons_of_mem w hv) hvv).1 hmem2
          · exact (hpre v (List.mem_cons_of_mem w hv) hvv).2
        rcases List.mem_cons.mp hc with rfl | hcc
        · left
          constructor
          · apply (runCivs_bound c2i cs _ c.id).2.2.1
            exact (mem_keysOf_assocSet st.civs c.id c.id e).mpr (Or.inl rfl)
          · intro hmem
            rcases (runCivs_bound c2i cs _ c.id).2.1 hmem with h1 | ⟨v, hv, hvv, hvi⟩
            · exact (hpre c (List.mem_cons_self c cs) hvc).2 h1
            · apply hndh
              rw [← hvi]
              exact List.mem_map.mpr ⟨v, List.mem_filter.mpr ⟨hv, hvv⟩, rfl⟩
        · exact ih _ hndt hpre' c hcc hvc
      · rw [hp]
        have hpre' : ∀ v ∈ cs, validC v = true →
            ¬ v.id ∈ keysOf st.civs ∧
            ¬ v.id ∈ ucIds { st with unmatched_civs := st.unmatched_civs ++ [r] } := by
          intro v hv hvv
          refine ⟨(hpre v (List.mem_cons_of_mem w hv) hvv).1, ?_⟩
          intro hmem
          rw [ucIds_append] at hmem
          rcases List.mem_append.mp hmem with h1 | h2
          · exact (hpre v (List.mem_cons_of_mem w hv) hvv).2 h1
          · rw [List.mem_singleton] at h2
            apply hndh
            rw [← hrid, ← h2]
            exact List.mem_map.mpr ⟨v, List.mem_filter.mpr ⟨hv, hvv⟩, rfl⟩
        rcases List.mem_cons.mp hc with rfl | hcc
        · right
          constructor
          · intro hmem
            rcases (runCivs_bound c2i cs _ c.id).1 hmem with h1 | ⟨v, hv, hvv, hvi⟩
            · exact (hpre c (List.mem_cons_self c cs) hvc).1 h1
            · apply hndh
              rw [← hvi]
              exact List.mem_map.mpr ⟨v, List.mem_filter.mpr ⟨hv, hvv⟩, rfl⟩
          · apply (runCivs_bound c2i cs _ c.id).2.2.2
            rw [ucIds_append]
            apply List.mem_append_right
            rw [List.mem_singleton, hrid]
        · exact ih _ hndt hpre' c hcc hvc
    · rw [processCiv_skip hvw]
      rw [List.filter_cons_of_neg hvw] at hnd
      rcases List.mem_cons.mp hc with rfl | hcc
      · exact absurd hvc hvw
      · exact ih st hnd (fun v hv hvv => hpre v (List.mem_cons_of_mem w hv) hvv) c hcc hvc

theorem runUnits_filter (n2o nrm2o : Idx) (st : SyncState) (us : List UnitRec) :
    runUnits n2o nrm2o st us = runUnits n2o nrm2o st (us.filter validU) :=
  foldl_filter_skip _ validU (fun _ _ ha => processUnit_skip ha) us st

theorem runCivs_filter (c2i : Idx) (st : SyncState) (cs : List CivRec) :
    runCivs c2i st cs = runCivs c2i st (cs.filter validC) :=
  foldl_filter_skip _ validC (fun _ _ ha => processCiv_skip ha) cs st

theorem umIds_runCivs (c2i : Idx) (cs : List CivRec) (st : SyncState) :
    umIds (runCivs c2i st cs) = umIds st := by
  unfold umIds
  rw [(runCivs_units_const c2i cs st).2]

theorem ucIds_runUnits (n2o nrm2o : Idx) (us : List UnitRec) (st : SyncState) :
    ucIds (runUnits n2o nrm2o st us) = ucIds st := by
  unfold ucIds
  rw [(runUnits_civs_const n2o nrm2o us st).2]

/-! ### Claim C9: deterministic, sorted serialization -/

/-- C9: the pipeline is a pure function of its inputs, so running it
twice on unchanged inputs serializes to identical bytes, and the
serializer emits the matched partitions with their keys in sorted
(code-point) order, as json.dumps with sort_keys does. -/
theorem c9_deterministic_sorted_serialization (objects : List (Nat × List Char))
    (civObjs : List (List Char × Nat)) (fs0 : Fs) (us : List UnitRec) (cs : List CivRec) :
    serializeManifest (runPipeline objects civObjs fs0 us cs) =
      serializeManifest (runPipeline objects civObjs fs0 us cs) ∧
    List.Sorted relU (sortedUnits (runPipeline objects civObjs fs0 us cs)) ∧
    List.Sorted relC (sortedCivs (runPipeline objects civObjs fs0 us cs)) :=
  ⟨rfl, List.sorted_insertionSort relU _, List.sorted_insertionSort relC _⟩

/-! ### Claim C10: the partition invariant -/

/-- C10: a record with empty (missing) id or name is silently skipped —
the run over the full list equals the run over the valid records only —
and, provided the valid records have pairwise distinct ids, every valid
unit (resp. civilization) record ends up in exactly one of the matched
or unmatched partitions: its id is a key of the matched map and not an
unmatched id, or vice versa. -/
theorem c10_partition_invariant (objects : List (Nat × List Char))
    (civObjs : List (List Char × Nat)) (fs0 : Fs) (us : List UnitRec) (cs : List CivRec)
    (hndU : ((us.filter validU).map (fun u => u.id)).Nodup)
    (hndC : ((cs.filter validC).map (fun c => c.id)).Nodup) :
    (runPipeline objects civObjs fs0 us cs =
      runPipeline objects civObjs fs0 (us.filter validU) (cs.filter validC)) ∧
    (∀ u ∈ us, validU u = true →
      (u.id ∈ keysOf (runPipeline objects civObjs fs0 us cs).units ∧
        ¬ u.id ∈ umIds (runPipeline objects civObjs fs0 us cs)) ∨
      (¬ u.id ∈ keysOf (runPipeline objects civObjs fs0 us cs).units ∧
        u.id ∈ umIds (runPipeline objects civObjs fs0 us cs))) ∧
    (∀ c ∈ cs, validC c = true →
      (c.id ∈ keysOf (runPipeline objects civObjs fs0 us cs).civs ∧
        ¬ c.id ∈ ucIds (runPipeline objects civObjs fs0 us cs)) ∨
      (¬ c.id ∈ keysOf (runPipeline objects civObjs fs0 us cs).civs ∧
        c.id ∈ ucIds (runPipeline objects civObjs fs0 us cs))) := by
  refine ⟨?_, ?_, ?_⟩
  · show runCivs (civ_name_to_iconid civObjs)
        (runUnits (name_to_objid objects) (norm_to_objid (name_to_objid objects))
          (initState fs0) us) cs =
      runCivs (civ_name_to_iconid civObjs)
        (runUnits (name_to_objid objects) (norm_to_objid (name_to_objid objects))
          (initState fs0) (us.filter validU)) (cs.filter validC)
    rw [← runUnits_filter, ← runCivs_filter]
  · intro u hu hvu
    have h1 := runUnits_partition (name_to_objid objects) (norm_to_objid (name_to_objid objects))
      us (initState fs0) hndU
      (fun v _ _ => ⟨by simp [initState, keysOf], by simp [initState, umIds]⟩) u hu hvu
    have hc := runCivs_units_const (civ_name_to_iconid civObjs) cs
      (runUnits (name_to_objid objects) (norm_to_objid (name_to_objid objects)) (initState fs0) us)
    rcases h1 with ⟨ha, hb⟩ | ⟨ha, hb⟩
    · left
      constructor
      · show u.id ∈ keysOf (runCivs _ _ _).units
        rw [hc.1]
        exact ha
      · show ¬ u.id ∈ umIds (runCivs _ _ _)
        rw [umIds_runCivs]
        exact hb
    · right
      constructor
      · show ¬ u.id ∈ keysOf (runCivs _ _ _).units
        rw [hc.1]
        exact ha
      · show u.id ∈ umIds (runCivs _ _ _)
        rw [umIds_runCivs]
        exact hb
  · intro c hcmem hvc
    have hcc := runUnits_civs_const (name_to_objid objects) (norm_to_objid (name_to_objid objects))
      us (initState fs0)
    apply runCivs_partition (civ_name_to_iconid civObjs) cs _ hndC ?_ c hcmem hvc
    intro v _ _
    constructor
    · intro h
      rw [hcc.1] at h
      simp [initState, keysOf] at h
    · intro h
      rw [ucIds_runUnits] at h
      simp [initState, ucIds] at h

/-- Witness for C10: in the fixture run, the valid base record pikeman
lands in exactly one partition. -/
theorem c10_witness :
    (uBase.id ∈ keysOf (runPipeline pikeObjs [] pikeFs [uBase, uElite] []).units ∧
      ¬ uBase.id ∈ umIds (runPipeline pikeObjs [] pikeFs [uBase, uElite] [])) ∨
    (¬ uBase.id ∈ keysOf (runPipeline pikeObjs [] pikeFs [uBase, uElite] []).units ∧
      uBase.id ∈ umIds (runPipeline pikeObjs [] pikeFs [uBase, uElite] [])) :=
  (c10_partition_invariant pikeObjs [] pikeFs [uBase, uElite] [] (by decide) (by decide)).2.1
    uBase (by decide) (by decide)

end SyncIcons
